import Mathlib

/-!
Circular dynamic array, FIFO queue, stack and call centre
(`dynarray.c`, `queue.c`, `stack.c`, `callcenter.c`)

A shallow embedding of the C sources.

Modelling conventions
* A `struct dynarray*` that passed `assert(da)` is a value of the structure
  `dynarray`; `malloc` is assumed to succeed.
* C `int` is 32 bits wide: a field holds an `Int` and every `int` addition,
  subtraction and multiplication of the source is reduced by `wrap_int` to
  the two's complement range `-2^31 .. 2^31 - 1`; `%` is C's truncating
  remainder `Int.tmod`, and a zero divisor is a fault.
* The backing buffer `void** data` is a list of slots whose length is the
  number of slots that were allocated.  A slot that was never written holds
  `Ptr.indeterminate`.  Any access outside the allocated slots is a fault.
* `free` of a payload (in `dynarray_set`) does not change the container.
* `list.c` is not among the sources: the linked list under the stack is
  modelled from the specification.
* Terminal input of `callcenter.c` is a parameter; its output is left out.
-/

/-- A `void*` value. -/
inductive Ptr where
  /-- the content of storage that was never written -/
  | indeterminate : Ptr
  /-- the null pointer -/
  | null : Ptr
  /-- the address of a payload -/
  | addr (a : Nat) : Ptr
  deriving DecidableEq, Repr

/-- The constant `NULL`. -/
def NULL : Ptr := Ptr.null

/-- The ways in which a call can fail to return. -/
inductive Fault where
  /-- an `assert` aborted the program -/
  | assert_failed : Fault
  /-- an access outside the allocated buffer -/
  | out_of_bounds : Fault
  /-- `%` with a zero divisor -/
  | div_by_zero : Fault
  deriving DecidableEq, Repr

deriving instance DecidableEq for Except

/-- The `struct dynarray` of `dynarray.c`. -/
structure dynarray where
  data : List Ptr
  size : Int
  capacity : Int
  start : Int
  deriving DecidableEq, Repr

/-- The macro `DYNARRAY_INIT_CAPACITY`. -/
def DYNARRAY_INIT_CAPACITY : Int := 4

/-- The result of `malloc(n * sizeof(void*))`: `n` slots of indeterminate content. -/
def malloc_slots (n : Int) : List Ptr := List.replicate n.toNat Ptr.indeterminate

/-- The expression `buf[p]` used as a value. -/
def slot_read (buf : List Ptr) (p : Int) : Except Fault Ptr :=
  if 0 ≤ p ∧ p < (buf.length : Int) then
    match buf[p.toNat]? with
    | some x => Except.ok x
    | none => Except.error Fault.out_of_bounds
  else Except.error Fault.out_of_bounds

/-- The assignment `buf[p] = v`. -/
def slot_write (buf : List Ptr) (p : Int) (v : Ptr) : Except Fault (List Ptr) :=
  if 0 ≤ p ∧ p < (buf.length : Int) then Except.ok (buf.set p.toNat v)
  else Except.error Fault.out_of_bounds

/-- The value of an `int` expression whose mathematical value is `x`: the
representative of `x` modulo `2^32` in `-2^31 .. 2^31 - 1`. -/
def wrap_int (x : Int) : Int := (x + 2147483648) % 4294967296 - 2147483648

/-- The expression `a % b` on `int`. -/
def c_mod (a b : Int) : Except Fault Int :=
  if b = 0 then Except.error Fault.div_by_zero else Except.ok (Int.tmod a b)

/-- `dynarray_create`: a new empty array of capacity 4. -/
def dynarray_create : dynarray :=
  { data := malloc_slots DYNARRAY_INIT_CAPACITY
    size := 0
    capacity := DYNARRAY_INIT_CAPACITY
    start := 0 }

/-- `dynarray_size`. -/
def dynarray_size (da : dynarray) : Int := da.size

/-- The copy loop of `_dynarray_resize`: `k` iterations remain, the loop
variable is `i`, and `new_data` is the buffer being filled. -/
def resize_copy (da : dynarray) : Nat → Int → List Ptr → Except Fault (List Ptr)
  | 0, _, new_data => Except.ok new_data
  | k + 1, i, new_data =>
    match c_mod (wrap_int (da.start + i)) da.capacity with
    | Except.error e => Except.error e
    | Except.ok index =>
      match slot_read da.data index with
      | Except.error e => Except.error e
      | Except.ok x =>
        match slot_write new_data i x with
        | Except.error e => Except.error e
        | Except.ok new_data1 => resize_copy da k (wrap_int (i + 1)) new_data1

/-- `_dynarray_resize`: the loop `for (i = 0; i < da->size; i++)` runs
`da->size` times (not at all when `da->size ≤ 0`). -/
def _dynarray_resize (da : dynarray) (new_capacity : Int) : Except Fault dynarray :=
  if ¬ (new_capacity > da.size) then Except.error Fault.assert_failed
  else
    match resize_copy da da.size.toNat 0 (malloc_slots new_capacity) with
    | Except.error e => Except.error e
    | Except.ok new_data =>
      Except.ok { da with data := new_data, capacity := new_capacity, start := 0 }

/-- The tail of `dynarray_insert`, after the optional resize. -/
def insert_store (da : dynarray) (val : Ptr) : Except Fault dynarray :=
  match c_mod (wrap_int (da.start + da.size)) da.capacity with
  | Except.error e => Except.error e
  | Except.ok physical =>
    match slot_write da.data physical val with
    | Except.error e => Except.error e
    | Except.ok data1 => Except.ok { da with data := data1, size := wrap_int (da.size + 1) }

/-- `dynarray_insert`. -/
def dynarray_insert (da : dynarray) (val : Ptr) : Except Fault dynarray :=
  if da.size = da.capacity then
    match _dynarray_resize da (wrap_int (2 * da.capacity)) with
    | Except.error e => Except.error e
    | Except.ok da1 => insert_store da1 val
  else insert_store da val

/-- `dynarray_get`. -/
def dynarray_get (da : dynarray) (idx : Int) : Except Fault Ptr :=
  if ¬ (idx < da.size ∧ idx ≥ 0) then Except.error Fault.assert_failed
  else
    match c_mod (wrap_int (da.start + idx)) da.capacity with
    | Except.error e => Except.error e
    | Except.ok physical_index => slot_read da.data physical_index

/-- `dynarray_set`. -/
def dynarray_set (da : dynarray) (idx : Int) (val : Ptr) : Except Fault dynarray :=
  if ¬ (idx < da.size ∧ idx ≥ 0) then Except.error Fault.assert_failed
  else
    match c_mod (wrap_int (da.start + idx)) da.capacity with
    | Except.error e => Except.error e
    | Except.ok physical_index =>
      match slot_write da.data physical_index val with
      | Except.error e => Except.error e
      | Except.ok data1 => Except.ok { da with data := data1 }

/-- `dynarray_get_front`: reads `da->data[da->start]`. -/
def dynarray_get_front (da : dynarray) : Except Fault Ptr :=
  slot_read da.data da.start

/-- `dynarray_remove_front`: `da->start = (da->start + 1); da->size--;`. -/
def dynarray_remove_front (da : dynarray) : dynarray :=
  { da with start := wrap_int (da.start + 1), size := wrap_int (da.size - 1) }

/-- The `struct queue` of `queue.c`. -/
structure queue where
  array : dynarray
  deriving DecidableEq, Repr

/-- `queue_create`. -/
def queue_create : queue := { array := dynarray_create }

/-- `queue_isempty`. -/
def queue_isempty (q : queue) : Int :=
  if dynarray_size q.array = 0 then 1 else 0

/-- `queue_enqueue`. -/
def queue_enqueue (q : queue) (val : Ptr) : Except Fault queue :=
  match dynarray_insert q.array val with
  | Except.error e => Except.error e
  | Except.ok a => Except.ok { q with array := a }

/-- `queue_front`. -/
def queue_front (q : queue) : Except Fault Ptr := dynarray_get q.array 0

/-- `queue_dequeue`: the returned value together with the queue afterwards. -/
def queue_dequeue (q : queue) : Except Fault (Ptr × queue) :=
  if queue_isempty q ≠ 0 then Except.ok (NULL, q)
  else
    match dynarray_get_front q.array with
    | Except.error e => Except.error e
    | Except.ok front_value =>
      Except.ok (front_value, { q with array := dynarray_remove_front q.array })

/-- `queue_size`. -/
def queue_size (q : queue) : Int := dynarray_size q.array

/-! ## Call sequences -/

/-- A call made on a container by a client. -/
inductive DaOp where
  | insert (v : Ptr) : DaOp
  | remove_front : DaOp
  deriving DecidableEq, Repr

/-- One client call on a container. -/
def da_step (da : dynarray) : DaOp → Except Fault dynarray
  | DaOp.insert v => dynarray_insert da v
  | DaOp.remove_front => Except.ok (dynarray_remove_front da)

/-- A sequence of client calls on a container, oldest call first. -/
def da_run (da : dynarray) : List DaOp → Except Fault dynarray
  | [] => Except.ok da
  | op :: rest =>
    match da_step da op with
    | Except.error e => Except.error e
    | Except.ok da1 => da_run da1 rest

/-- Every `dynarray_remove_front` of the sequence is applied to a container
whose size is positive. -/
def removals_on_nonempty (da : dynarray) : List DaOp → Bool
  | [] => true
  | DaOp.insert v :: rest =>
    match dynarray_insert da v with
    | Except.error _ => true
    | Except.ok da1 => removals_on_nonempty da1 rest
  | DaOp.remove_front :: rest =>
    decide (0 < dynarray_size da) && removals_on_nonempty (dynarray_remove_front da) rest

/-- The number of `dynarray_insert` calls of a sequence. -/
def count_inserts : List DaOp → Nat
  | [] => 0
  | DaOp.insert _ :: rest => count_inserts rest + 1
  | DaOp.remove_front :: rest => count_inserts rest

/-- The number of `dynarray_remove_front` calls of a sequence. -/
def count_removals : List DaOp → Nat
  | [] => 0
  | DaOp.insert _ :: rest => count_removals rest
  | DaOp.remove_front :: rest => count_removals rest + 1

/-- The container states a client can reach from `dynarray_create` with
`dynarray_insert`, `dynarray_set` at a valid index (an invalid index aborts)
and `dynarray_remove_front` on a non-empty container. -/
inductive Reachable : dynarray → Prop where
  | create : Reachable dynarray_create
  | insert {da da1 : dynarray} (v : Ptr) :
      Reachable da → dynarray_insert da v = Except.ok da1 → Reachable da1
  | set {da da1 : dynarray} (idx : Int) (v : Ptr) :
      Reachable da → dynarray_set da idx v = Except.ok da1 → Reachable da1
  | remove_front {da : dynarray} :
      Reachable da → 0 < dynarray_size da → Reachable (dynarray_remove_front da)

/-- A call made on a queue by a client. -/
inductive QOp where
  | enqueue (v : Ptr) : QOp
  | dequeue : QOp
  deriving DecidableEq, Repr

/-- A sequence of client calls on a queue, oldest call first: the values
returned by the `queue_dequeue` calls, in order, and the queue afterwards. -/
def queue_run (q : queue) : List QOp → Except Fault (List Ptr × queue)
  | [] => Except.ok ([], q)
  | QOp.enqueue v :: rest =>
    match queue_enqueue q v with
    | Except.error e => Except.error e
    | Except.ok q1 => queue_run q1 rest
  | QOp.dequeue :: rest =>
    match queue_dequeue q with
    | Except.error e => Except.error e
    | Except.ok (x, q1) =>
      match queue_run q1 rest with
      | Except.error e => Except.error e
      | Except.ok (xs, q2) => Except.ok (x :: xs, q2)

/-- The FIFO model list of the specification: enqueue appends, dequeue pops
the head (and returns the empty sentinel on the empty list). The result is the
values returned by the dequeues and the model list afterwards. -/
def fifo_model_run (l : List Ptr) : List QOp → List Ptr × List Ptr
  | [] => ([], l)
  | QOp.enqueue v :: rest => fifo_model_run (l ++ [v]) rest
  | QOp.dequeue :: rest =>
    match l with
    | [] => (NULL :: (fifo_model_run [] rest).1, (fifo_model_run [] rest).2)
    | x :: l1 => (x :: (fifo_model_run l1 rest).1, (fifo_model_run l1 rest).2)

/-- `queue_enqueue` of each value of a list, in order. -/
def enqueue_all (q : queue) : List Ptr → Except Fault queue
  | [] => Except.ok q
  | v :: vs =>
    match queue_enqueue q v with
    | Except.error e => Except.error e
    | Except.ok q1 => enqueue_all q1 vs

/-- `queue_dequeue` called `n` times: the returned values in order, and the
queue afterwards. -/
def dequeue_n (q : queue) : Nat → Except Fault (List Ptr × queue)
  | 0 => Except.ok ([], q)
  | n + 1 =>
    match queue_dequeue q with
    | Except.error e => Except.error e
    | Except.ok (x, q1) =>
      match dequeue_n q1 n with
      | Except.error e => Except.error e
      | Except.ok (xs, q2) => Except.ok (x :: xs, q2)

/-- The abstraction relation: the list `l` is the logical content of the
container.  The capacity is `4·2^k` with `k ≤ 28`, the start is an `int`, and
for every logical index `i` the index expression of the source,
`(start + i) % capacity` on `int`, is not negative and is the slot
`(start + i) mod capacity`, which holds the element `i` of `l`. -/
structure Abs (da : dynarray) (l : List Ptr) : Prop where
  start_range : -2147483648 ≤ da.start ∧ da.start < 2147483648
  cap_pow : ∃ k : Nat, k ≤ 28 ∧ da.capacity = 4 * 2 ^ k
  length_data : (da.data.length : Int) = da.capacity
  size_eq : da.size = (l.length : Int)
  size_le : l.length ≤ da.data.length
  slots : ∀ i : Nat, i < l.length →
    0 ≤ Int.tmod (wrap_int (da.start + (i : Int))) da.capacity ∧
    da.data[((da.start + (i : Int)) % da.capacity).toNat]? = l[i]?

/-- Five enqueues after four dequeues: the sequence on which the start index
reaches the capacity. -/
def drain_then_enqueue : List QOp :=
  [QOp.enqueue (Ptr.addr 1), QOp.enqueue (Ptr.addr 2), QOp.enqueue (Ptr.addr 3),
   QOp.enqueue (Ptr.addr 4), QOp.dequeue, QOp.dequeue, QOp.dequeue, QOp.dequeue,
   QOp.enqueue (Ptr.addr 5), QOp.dequeue]

/-- Four appends followed by four front removals. -/
def fill_and_drain : List DaOp :=
  [DaOp.insert (Ptr.addr 1), DaOp.insert (Ptr.addr 2), DaOp.insert (Ptr.addr 3),
   DaOp.insert (Ptr.addr 4), DaOp.remove_front, DaOp.remove_front, DaOp.remove_front,
   DaOp.remove_front]

/-- Four appends, four front removals, one more append. -/
def refill_after_drain : List DaOp := fill_and_drain ++ [DaOp.insert (Ptr.addr 5)]

/-- Four appends followed by three front removals: the front is in the last slot. -/
def front_in_last_slot : List DaOp :=
  [DaOp.insert (Ptr.addr 1), DaOp.insert (Ptr.addr 2), DaOp.insert (Ptr.addr 3),
   DaOp.insert (Ptr.addr 4), DaOp.remove_front, DaOp.remove_front, DaOp.remove_front]

/-- Four appends, one front removal, one append: a full buffer that wraps. -/
def wrapped_full : List DaOp :=
  [DaOp.insert (Ptr.addr 1), DaOp.insert (Ptr.addr 2), DaOp.insert (Ptr.addr 3),
   DaOp.insert (Ptr.addr 4), DaOp.remove_front, DaOp.insert (Ptr.addr 5)]

/-- The container after the calls of `wrapped_full`. -/
def wrapped_full_state : dynarray :=
  { data := [Ptr.addr 5, Ptr.addr 2, Ptr.addr 3, Ptr.addr 4], size := 4, capacity := 4,
    start := 1 }

/-! ## Index expression and the dequeue-enqueue pattern -/

/-- The index expression `(da->start + idx) % da->capacity` of `dynarray_get`
and `dynarray_set`. -/
def physical_index (da : dynarray) (idx : Int) : Except Fault Int :=
  c_mod (wrap_int (da.start + idx)) da.capacity

/-- The pair `dynarray_remove_front(da); dynarray_insert(da, v)`, made once
for each value of a list. -/
def remove_then_insert_all (da : dynarray) : List Ptr → Except Fault dynarray
  | [] => Except.ok da
  | v :: vs =>
    match dynarray_insert (dynarray_remove_front da) v with
    | Except.error e => Except.error e
    | Except.ok da1 => remove_then_insert_all da1 vs

/-! ## The stack of `stack.c` -/

/-- Modelled from the spec: the `struct list` of `list.c`, which is not among
the sources.  A singly linked sequence of nodes, each owning one payload
handle; the first value is the one of the head node. -/
structure list where
  nodes : List Ptr
  deriving DecidableEq, Repr

/-- Modelled from the spec: `list_create` of `list.c` (not among the sources),
the empty head reference. -/
def list_create : list := { nodes := [] }

/-- Modelled from the spec: `list_isempty` of `list.c` (not among the sources),
1 when the head is absent and 0 otherwise. -/
def list_isempty (l : list) : Int :=
  match l.nodes with
  | [] => 1
  | _ :: _ => 0

/-- Modelled from the spec: `list_insert` of `list.c` (not among the sources),
which links a new node owning the value as the new head, the previous head
becoming its successor. -/
def list_insert (l : list) (val : Ptr) : list := { nodes := val :: l.nodes }

/-- Modelled from the spec: `top_value` of `list.c` (not among the sources),
the value owned by the head node; a hard failure on the empty list. -/
def top_value (l : list) : Except Fault Ptr :=
  match l.nodes with
  | [] => Except.error Fault.assert_failed
  | v :: _ => Except.ok v

/-- Modelled from the spec: `pop_value` of `list.c` (not among the sources),
which detaches the head node and returns the value it owned; a hard failure on
the empty list. -/
def pop_value (l : list) : Except Fault (Ptr × list) :=
  match l.nodes with
  | [] => Except.error Fault.assert_failed
  | v :: rest => Except.ok (v, { nodes := rest })

/-- Modelled from the spec: `list_size` of `list.c` (not among the sources),
the count of nodes. -/
def list_size (l : list) : Int := (l.nodes.length : Int)

/-- The `struct stack` of `stack.c`. -/
structure stack where
  list : list
  deriving DecidableEq, Repr

/-- `stack_create`. -/
def stack_create : stack := { list := list_create }

/-- `stack_isempty`. -/
def stack_isempty (s : stack) : Int := list_isempty s.list

/-- `stack_push`. -/
def stack_push (s : stack) (val : Ptr) : stack := { s with list := list_insert s.list val }

/-- `stack_top`. -/
def stack_top (s : stack) : Except Fault Ptr := top_value s.list

/-- `stack_pop`: the popped value together with the stack afterwards. -/
def stack_pop (s : stack) : Except Fault (Ptr × stack) :=
  match pop_value s.list with
  | Except.error e => Except.error e
  | Except.ok (value, l1) => Except.ok (value, { s with list := l1 })

/-- `stack_size`. -/
def stack_size (s : stack) : Int := list_size s.list

/-- `stack_push` of each value of a list, in order. -/
def push_all (s : stack) : List Ptr → stack
  | [] => s
  | v :: vs => push_all (stack_push s v) vs

/-- `stack_pop` called `n` times: the returned values in order, and the stack
afterwards. -/
def pop_n (s : stack) : Nat → Except Fault (List Ptr × stack)
  | 0 => Except.ok ([], s)
  | n + 1 =>
    match stack_pop s with
    | Except.error e => Except.error e
    | Except.ok (x, s1) =>
      match pop_n s1 n with
      | Except.error e => Except.error e
      | Except.ok (xs, s2) => Except.ok (x :: xs, s2)

/-! ## The call centre of `callcenter.c` -/

/-- The `Call` record: the text fields are the bytes typed by the user. -/
structure Call where
  id : Int
  caller_name : List Nat
  call_reason : List Nat
  deriving DecidableEq, Repr

/-- The state of `main`: the two containers and the `Call` records allocated
so far, the record allocated `a`-th (from 0) living at address `Ptr.addr a`. -/
structure callcenter where
  call_queue : queue
  answered_calls : stack
  calls : List Call
  deriving DecidableEq, Repr

/-- The state of `main` before its loop. -/
def callcenter_start : callcenter :=
  { call_queue := queue_create, answered_calls := stack_create, calls := [] }

/-- `receive_call`, the two lines read from the terminal being parameters. -/
def receive_call (c : callcenter) (name reason : List Nat) : Except Fault callcenter :=
  let new_call : Call :=
    { id := wrap_int (queue_size c.call_queue + 1), caller_name := name,
      call_reason := reason }
  match queue_enqueue c.call_queue (Ptr.addr c.calls.length) with
  | Except.error e => Except.error e
  | Except.ok q1 => Except.ok { c with call_queue := q1, calls := c.calls ++ [new_call] }

/-- `answer_call` (its messages to the terminal left out). -/
def answer_call (c : callcenter) : Except Fault callcenter :=
  if queue_isempty c.call_queue ≠ 0 then Except.ok c
  else
    match queue_dequeue c.call_queue with
    | Except.error e => Except.error e
    | Except.ok (answered_call, q1) =>
      Except.ok { c with call_queue := q1,
                         answered_calls := stack_push c.answered_calls answered_call }

/-- A choice of the menu of `main` that changes the state. -/
inductive Choice where
  | receive (name reason : List Nat) : Choice
  | answer : Choice
  deriving DecidableEq, Repr

/-- The loop of `main` on a list of menu choices. -/
def main_loop (c : callcenter) : List Choice → Except Fault callcenter
  | [] => Except.ok c
  | Choice.receive name reason :: rest =>
    match receive_call c name reason with
    | Except.error e => Except.error e
    | Except.ok c1 => main_loop c1 rest
  | Choice.answer :: rest =>
    match answer_call c with
    | Except.error e => Except.error e
    | Except.ok c1 => main_loop c1 rest

/-- The identifier of the call record a queue slot points to. -/
def waiting_id (c : callcenter) (i : Int) : Option Int :=
  match dynarray_get c.call_queue.array i with
  | Except.ok (Ptr.addr a) => (c.calls[a]?).map Call.id
  | _ => none

/-- Two calls received, one answered, one more received. -/
def two_in_one_out_one_in : List Choice :=
  [Choice.receive [65] [1], Choice.receive [66] [2], Choice.answer, Choice.receive [67] [3]]

/-! ## Long sessions -/

/-- The session that makes `n` times the calls `dynarray_insert(da, p)`,
`dynarray_remove_front(da)` and then the calls of `rest`. -/
def cycle_then : Nat → List DaOp → List DaOp
  | 0, rest => rest
  | n + 1, rest => DaOp.insert (Ptr.addr 1) :: DaOp.remove_front :: cycle_then n rest

/-- An append followed by a front removal, `2^31 - 1` times, and then three
appends. -/
def overflow_session : List DaOp :=
  cycle_then 2147483647
    [DaOp.insert (Ptr.addr 2), DaOp.insert (Ptr.addr 3), DaOp.insert (Ptr.addr 4)]

/-- A container of four slots and capacity 4 with the given start and size. -/
def Shape (s z : Int) (da : dynarray) : Prop :=
  da.start = s ∧ da.size = z ∧ da.capacity = 4 ∧ da.data.length = 4

/-! ## Arithmetic of `int` -/

theorem wrap_int_eq (x : Int) (h0 : -2147483648 ≤ x) (h1 : x < 2147483648) : wrap_int x = x := by
  unfold wrap_int
  omega

theorem wrap_int_range (x : Int) : -2147483648 ≤ wrap_int x ∧ wrap_int x < 2147483648 := by
  unfold wrap_int
  omega

theorem wrap_int_add (a b : Int) : wrap_int (wrap_int a + b) = wrap_int (a + b) := by
  unfold wrap_int
  omega

theorem wrap_int_emod (x c : Int) (hc : c ∣ 4294967296) : wrap_int x % c = x % c := by
  obtain ⟨m, hm⟩ := hc
  have h : wrap_int x = x + c * (m * (-((x + 2147483648) / 4294967296))) := by
    rw [← Int.mul_assoc, ← hm]
    unfold wrap_int
    omega
  rw [h, Int.add_mul_emod_self_left]

theorem tmod_of_nonneg (y c : Int) (hy : 0 ≤ y) (hc : 0 < c) : Int.tmod y c = y % c :=
  Int.tmod_eq_emod hy (le_of_lt hc)

theorem tmod_of_neg (y c : Int) (hy : y < 0) (hc : 0 < c) : Int.tmod y c = -((-y) % c) := by
  obtain ⟨n, rfl⟩ := Int.eq_ofNat_of_zero_le (le_of_lt hc)
  obtain ⟨m, rfl⟩ := Int.eq_negSucc_of_lt_zero hy
  rfl

theorem tmod_eq_emod_of_nonneg_tmod (y c : Int) (hc : 0 < c) (h : 0 ≤ Int.tmod y c) :
    Int.tmod y c = y % c := by
  by_cases hy : 0 ≤ y
  · exact tmod_of_nonneg y c hy hc
  · have hny : 0 ≤ -y := by omega
    have h1 : Int.tmod y c = -((-y) % c) := tmod_of_neg y c (by omega) hc
    have h2 : 0 ≤ (-y) % c := Int.emod_nonneg _ (by omega)
    have h3 : (-y) % c = 0 := by omega
    have h4 : c ∣ y := by
      have : c ∣ -y := Int.dvd_of_emod_eq_zero h3
      exact (Int.dvd_neg).mp this
    rw [h1, h3, Int.emod_eq_zero_of_dvd h4]
    rfl

theorem cap_pow_bounds (c : Int) (h : ∃ k : Nat, k ≤ 28 ∧ c = 4 * 2 ^ k) :
    4 ≤ c ∧ c ≤ 1073741824 ∧ c ∣ 4294967296 := by
  obtain ⟨k, hk, rfl⟩ := h
  have h1 : (1 : Int) ≤ 2 ^ k := by
    have : (0 : Int) < 2 ^ k := by positivity
    omega
  have h2 : (2 : Int) ^ k ≤ 2 ^ 28 := by
    exact pow_le_pow_right₀ (by norm_num) hk
  have h3 : (2 : Int) ^ k ∣ 2 ^ 28 := pow_dvd_pow 2 hk
  refine ⟨by omega, by norm_num at h2; omega, ?_⟩
  have h4 : (4294967296 : Int) = 4 * (4 * 2 ^ 28) := by norm_num
  rw [h4]
  exact Dvd.dvd.mul_left (mul_dvd_mul_left 4 h3) 4

theorem phys_eq_emod (x c : Int) (hc : ∃ k : Nat, k ≤ 28 ∧ c = 4 * 2 ^ k)
    (h : 0 ≤ Int.tmod (wrap_int x) c) : Int.tmod (wrap_int x) c = x % c := by
  obtain ⟨h4, _, hd⟩ := cap_pow_bounds c hc
  rw [tmod_eq_emod_of_nonneg_tmod _ c (by omega) h, wrap_int_emod x c hd]

theorem phys_of_nonneg (x c : Int) (hc : ∃ k : Nat, k ≤ 28 ∧ c = 4 * 2 ^ k)
    (h0 : 0 ≤ x) (h1 : x < 2147483648) :
    0 ≤ Int.tmod (wrap_int x) c ∧ Int.tmod (wrap_int x) c = x % c := by
  obtain ⟨h4, _, _⟩ := cap_pow_bounds c hc
  rw [wrap_int_eq x (by omega) h1, tmod_of_nonneg x c h0 (by omega)]
  exact ⟨Int.emod_nonneg _ (by omega), rfl⟩

theorem emod_injective (s c : Int) (i j : Nat) (hi : (i : Int) < c) (hj : (j : Int) < c)
    (hij : i ≠ j) : (s + (i : Int)) % c ≠ (s + (j : Int)) % c := by
  intro h
  have h1 : ((s + (i : Int)) - (s + (j : Int))) % c = 0 :=
    Int.emod_eq_emod_iff_emod_sub_eq_zero.mp h
  have h2 : c ∣ ((i : Int) - (j : Int)) := by
    have : (s + (i : Int)) - (s + (j : Int)) = (i : Int) - (j : Int) := by ring
    rw [this] at h1
    exact Int.dvd_of_emod_eq_zero h1
  obtain ⟨m, hm⟩ := h2
  have hc : 0 < c := by omega
  have hm0 : m = 0 := by
    by_contra hne
    have : 1 ≤ m ∨ m ≤ -1 := by omega
    rcases this with h | h
    · have : c * 1 ≤ c * m := Int.mul_le_mul_of_nonneg_left h (le_of_lt hc)
      omega
    · have : c * m ≤ c * (-1) := Int.mul_le_mul_of_nonneg_left h (le_of_lt hc)
      omega
  rw [hm0, Int.mul_zero] at hm
  omega
/-! ## Slots -/

theorem slot_read_nat (buf : List Ptr) (p : Nat) (x : Ptr) (h : buf[p]? = some x) :
    slot_read buf (p : Int) = Except.ok x := by
  have hp : p < buf.length := (List.getElem?_eq_some.mp h).1
  have hc : 0 ≤ (p : Int) ∧ (p : Int) < (buf.length : Int) := by omega
  unfold slot_read
  rw [if_pos hc, Int.toNat_ofNat, h]

theorem slot_write_nat (buf : List Ptr) (p : Nat) (v : Ptr) (hp : p < buf.length) :
    slot_write buf (p : Int) v = Except.ok (buf.set p v) := by
  have hc : 0 ≤ (p : Int) ∧ (p : Int) < (buf.length : Int) := by omega
  unfold slot_write
  rw [if_pos hc, Int.toNat_ofNat]

theorem emod_add_congr (a b i c : Int) (h : a % c = b % c) : (a + i) % c = (b + i) % c := by
  rw [Int.add_emod, h, ← Int.add_emod]

/-! ## The abstraction relation -/

theorem Abs.cap_bounds {da : dynarray} {l : List Ptr} (h : Abs da l) :
    4 ≤ da.capacity ∧ da.capacity ≤ 1073741824 ∧ da.capacity ∣ 4294967296 :=
  cap_pow_bounds da.capacity h.cap_pow

theorem Abs.size_bounds {da : dynarray} {l : List Ptr} (h : Abs da l) :
    0 ≤ da.size ∧ da.size ≤ da.capacity ∧ da.capacity ≤ 1073741824 := by
  have h1 := h.size_eq
  have h2 := h.size_le
  have h3 := h.length_data
  have h4 := h.cap_bounds
  omega

theorem Abs.idx {da : dynarray} {l : List Ptr} (h : Abs da l) (i : Nat) (hi : i < l.length) :
    c_mod (wrap_int (da.start + (i : Int))) da.capacity
      = Except.ok ((((da.start + (i : Int)) % da.capacity).toNat : Nat) : Int) ∧
    ((da.start + (i : Int)) % da.capacity).toNat < da.data.length ∧
    da.data[((da.start + (i : Int)) % da.capacity).toNat]? = l[i]? := by
  obtain ⟨h4, _, _⟩ := h.cap_bounds
  have hne : da.capacity ≠ 0 := by omega
  have hs := h.slots i hi
  have he := phys_eq_emod (da.start + (i : Int)) da.capacity h.cap_pow hs.1
  have hn : 0 ≤ (da.start + (i : Int)) % da.capacity := Int.emod_nonneg _ hne
  have hl : (da.start + (i : Int)) % da.capacity < da.capacity :=
    Int.emod_lt_of_pos _ (by omega)
  have hld := h.length_data
  refine ⟨?_, by omega, hs.2⟩
  unfold c_mod
  rw [if_neg hne, he, Int.toNat_of_nonneg hn]

theorem Abs.create : Abs dynarray_create [] where
  start_range := by decide
  cap_pow := ⟨0, by decide, by decide⟩
  length_data := by decide
  size_eq := by decide
  size_le := by decide
  slots := by intro i hi; simp at hi

theorem Abs.get {da : dynarray} {l : List Ptr} (h : Abs da l) (i : Nat) (x : Ptr)
    (hx : l[i]? = some x) : dynarray_get da (i : Int) = Except.ok x := by
  have hi : i < l.length := (List.getElem?_eq_some.mp hx).1
  have hs := h.size_eq
  have hc : (i : Int) < da.size ∧ (i : Int) ≥ 0 := by omega
  obtain ⟨e, _, hd⟩ := h.idx i hi
  unfold dynarray_get
  rw [if_neg (not_not.mpr hc), e]
  exact slot_read_nat _ _ _ (hd.trans hx)

theorem Abs.remove_front {da : dynarray} {x : Ptr} {l : List Ptr} (h : Abs da (x :: l)) :
    Abs (dynarray_remove_front da) l where
  start_range := wrap_int_range _
  cap_pow := h.cap_pow
  length_data := h.length_data
  size_eq := by
    have h1 := h.size_eq
    have h2 := h.size_bounds
    simp only [List.length_cons] at h1
    simp only [dynarray_remove_front]
    rw [wrap_int_eq _ (by omega) (by omega)]
    push_cast at h1
    omega
  size_le := by have := h.size_le; simp only [dynarray_remove_front, List.length_cons] at *; omega
  slots := by
    intro i hi
    have h1 := h.slots (i + 1) (by simp only [List.length_cons]; omega)
    obtain ⟨_, _, hd⟩ := h.cap_bounds
    have e1 : da.start + ((i + 1 : Nat) : Int) = da.start + 1 + (i : Int) := by
      push_cast; ring
    rw [e1, List.getElem?_cons_succ] at h1
    simp only [dynarray_remove_front]
    rw [wrap_int_add]
    refine ⟨h1.1, ?_⟩
    rw [emod_add_congr _ _ (i : Int) da.capacity (wrap_int_emod (da.start + 1) da.capacity hd)]
    exact h1.2
theorem abs_insert_store {da : dynarray} {l : List Ptr} (h : Abs da l) (v : Ptr)
    (hlt : l.length < da.data.length)
    (hidx : 0 ≤ Int.tmod (wrap_int (da.start + da.size)) da.capacity) :
    ∃ da1, insert_store da v = Except.ok da1 ∧ Abs da1 (l ++ [v]) ∧
      da1.capacity = da.capacity ∧ da1.start = da.start := by
  obtain ⟨h4, hmax, _⟩ := h.cap_bounds
  have hne : da.capacity ≠ 0 := by omega
  have hsz := h.size_eq
  have hld := h.length_data
  have he := phys_eq_emod (da.start + da.size) da.capacity h.cap_pow hidx
  have hn : 0 ≤ (da.start + da.size) % da.capacity := Int.emod_nonneg _ hne
  have hl : (da.start + da.size) % da.capacity < da.capacity := Int.emod_lt_of_pos _ (by omega)
  have hp : ((da.start + da.size) % da.capacity).toNat < da.data.length := by omega
  have hw : wrap_int (da.size + 1) = da.size + 1 := wrap_int_eq _ (by omega) (by omega)
  refine ⟨{ da with data := da.data.set ((da.start + da.size) % da.capacity).toNat v,
                    size := wrap_int (da.size + 1) }, ?_, ?_, rfl, rfl⟩
  · unfold insert_store c_mod
    rw [if_neg hne, he]
    simp only
    have hcast : (da.start + da.size) % da.capacity
        = ((((da.start + da.size) % da.capacity).toNat : Nat) : Int) :=
      (Int.toNat_of_nonneg hn).symm
    rw [hcast, slot_write_nat _ _ v hp, ← hcast]
  · refine ⟨h.start_range, h.cap_pow, ?_, ?_, ?_, ?_⟩
    · simp only [List.length_set]; exact hld
    · simp only [List.length_append, List.length_singleton]
      rw [hw]
      push_cast
      omega
    · simp only [List.length_set, List.length_append, List.length_singleton]; omega
    · intro i hi
      simp only [List.length_append, List.length_singleton] at hi
      by_cases hil : i = l.length
      · subst hil
        rw [← hsz]
        refine ⟨hidx, ?_⟩
        simp only
        rw [List.getElem?_set_self hp, List.getElem?_concat_length]
      · have hi2 : i < l.length := by omega
        have hs := h.slots i hi2
        refine ⟨hs.1, ?_⟩
        have hinj := emod_injective da.start da.capacity i l.length (by omega) (by omega) hil
        have hni : 0 ≤ (da.start + (i : Int)) % da.capacity := Int.emod_nonneg _ hne
        have hne2 : ((da.start + da.size) % da.capacity).toNat
            ≠ ((da.start + (i : Int)) % da.capacity).toNat := by
          rw [hsz]
          rw [hsz] at hn
          omega
        simp only
        rw [List.getElem?_set_ne hne2, List.getElem?_append_left hi2]
        exact hs.2

theorem insert_store_negative (da : dynarray) (v : Ptr) (hne : da.capacity ≠ 0)
    (hneg : Int.tmod (wrap_int (da.start + da.size)) da.capacity < 0) :
    insert_store da v = Except.error Fault.out_of_bounds := by
  have hc : ¬ (0 ≤ Int.tmod (wrap_int (da.start + da.size)) da.capacity ∧
      Int.tmod (wrap_int (da.start + da.size)) da.capacity < (da.data.length : Int)) := by
    omega
  unfold insert_store c_mod
  rw [if_neg hne]
  simp only [slot_write, if_neg hc]

theorem resize_copy_spec {da : dynarray} {l : List Ptr} (h : Abs da l) :
    ∀ (k i : Nat) (nd : List Ptr), i + k ≤ l.length → l.length ≤ nd.length →
      (∀ j, j < i → nd[j]? = l[j]?) →
      ∃ nd1, resize_copy da k (i : Int) nd = Except.ok nd1 ∧ nd1.length = nd.length ∧
        ∀ j, j < i + k → nd1[j]? = l[j]? := by
  intro k
  induction k with
  | zero =>
    intro i nd _ _ hpre
    exact ⟨nd, rfl, rfl, fun j hj => hpre j (by omega)⟩
  | succ k ih =>
    intro i nd hik hlen hpre
    have hi : i < l.length := by omega
    have hx : l[i]? = some l[i] := List.getElem?_eq_getElem hi
    obtain ⟨e, _, hd⟩ := h.idx i hi
    have hrd := slot_read_nat _ _ _ (hd.trans hx)
    have hwr : slot_write nd (i : Int) l[i] = Except.ok (nd.set i l[i]) :=
      slot_write_nat _ _ _ (by omega)
    have hpre1 : ∀ j, j < i + 1 → (nd.set i l[i])[j]? = l[j]? := by
      intro j hj
      by_cases hji : j = i
      · subst hji
        rw [List.getElem?_set_self (by omega), hx]
      · rw [List.getElem?_set_ne (fun e => hji e.symm)]
        exact hpre j (by omega)
    obtain ⟨nd1, h1, h2, h3⟩ := ih (i + 1) (nd.set i l[i]) (by omega)
      (by simp only [List.length_set]; exact hlen) hpre1
    have hb := h.size_bounds
    have hsz := h.size_eq
    have hwi : wrap_int ((i : Int) + 1) = ((i + 1 : Nat) : Int) := by
      rw [wrap_int_eq _ (by omega) (by omega)]
      push_cast
      rfl
    refine ⟨nd1, ?_, ?_, ?_⟩
    · unfold resize_copy
      rw [e]
      simp only
      rw [hrd]
      simp only
      rw [hwr]
      simp only
      rw [hwi, h1]
    · rw [h2, List.length_set]
    · intro j hj
      clear hwi
      exact h3 j (by omega)

theorem abs_resize {da : dynarray} {l : List Ptr} (h : Abs da l) (N : Nat)
    (hN : l.length < N) (hpow : ∃ k : Nat, k ≤ 28 ∧ (N : Int) = 4 * 2 ^ k) :
    ∃ da1, _dynarray_resize da (N : Int) = Except.ok da1 ∧ Abs da1 l ∧
      da1.capacity = (N : Int) ∧ da1.start = 0 ∧ da1.data.length = N := by
  have hsz := h.size_eq
  have hgt : (N : Int) > da.size := by omega
  have hlen0 : (malloc_slots (N : Int)).length = N := by
    simp [malloc_slots]
  obtain ⟨nd1, h1, h2, h3⟩ := resize_copy_spec h l.length 0 (malloc_slots (N : Int))
    (by omega) (by omega) (fun j hj => absurd hj (Nat.not_lt_zero j))
  obtain ⟨_, hmax, _⟩ := cap_pow_bounds (N : Int) hpow
  refine ⟨{ da with data := nd1, capacity := (N : Int), start := 0 }, ?_, ?_, rfl, rfl, ?_⟩
  · unfold _dynarray_resize
    rw [if_neg (not_not.mpr hgt), hsz, Int.toNat_ofNat]
    rw [Nat.cast_zero] at h1
    rw [h1]
  · refine ⟨⟨by simp only; decide, by simp only; decide⟩, hpow, ?_, h.size_eq, ?_, ?_⟩
    · simp only; rw [h2, hlen0]
    · simp only; rw [h2, hlen0]; omega
    · intro i hi
      simp only
      have hp := phys_of_nonneg (0 + (i : Int)) (N : Int) hpow (by omega) (by omega)
      refine ⟨hp.1, ?_⟩
      have hm : (0 + (i : Int)) % (N : Int) = (i : Int) := by
        rw [Int.zero_add]
        exact Int.emod_eq_of_lt (by omega) (by omega)
      rw [hm, Int.toNat_ofNat]
      exact h3 i (by omega)
  · simp only; rw [h2, hlen0]

theorem abs_insert_full {da : dynarray} {l : List Ptr} (h : Abs da l) (v : Ptr)
    (hfull : da.size = da.capacity) (hcap : da.capacity < 1073741824) :
    ∃ da1, dynarray_insert da v = Except.ok da1 ∧ Abs da1 (l ++ [v]) ∧
      da1.capacity = 2 * da.capacity ∧ da1.start = 0 := by
  have hsz := h.size_eq
  have hld := h.length_data
  have hle := h.size_le
  obtain ⟨h4, _, _⟩ := h.cap_bounds
  obtain ⟨k, hk, hck⟩ := h.cap_pow
  have hk28 : k ≠ 28 := by
    intro e
    rw [e] at hck
    norm_num at hck
    omega
  have hcast : ((2 * da.data.length : Nat) : Int) = 2 * da.capacity := by
    rw [← hld]; push_cast; rfl
  have hpow : ∃ k1 : Nat, k1 ≤ 28 ∧ ((2 * da.data.length : Nat) : Int) = 4 * 2 ^ k1 :=
    ⟨k + 1, by omega, by rw [hcast, hck, pow_succ]; ring⟩
  have hN : l.length < 2 * da.data.length := by omega
  obtain ⟨da0, r1, r2, r3, r4, r5⟩ := abs_resize h (2 * da.data.length) hN hpow
  rw [hcast] at r1 r3
  have hw : wrap_int (2 * da.capacity) = 2 * da.capacity := wrap_int_eq _ (by omega) (by omega)
  have hidx : 0 ≤ Int.tmod (wrap_int (da0.start + da0.size)) da0.capacity := by
    have hs0 := r2.size_eq
    rw [r4, hs0]
    exact (phys_of_nonneg (0 + (l.length : Int)) da0.capacity r2.cap_pow (by omega)
      (by omega)).1
  obtain ⟨da2, s1, s2, s3, s4⟩ := abs_insert_store r2 v (by rw [r5]; exact hN) hidx
  refine ⟨da2, ?_, s2, s3.trans r3, s4.trans r4⟩
  unfold dynarray_insert
  rw [if_pos hfull, hw, r1]
  exact s1

theorem insert_full_at_max (da : dynarray) (v : Ptr) (hfull : da.size = da.capacity)
    (hcap : da.capacity = 1073741824) :
    dynarray_insert da v = Except.error Fault.assert_failed := by
  have hw : wrap_int (2 * da.capacity) = -2147483648 := by
    rw [hcap]
    decide
  have hc : ¬ (wrap_int (2 * da.capacity) > da.size) := by
    rw [hw, hfull, hcap]
    decide
  unfold dynarray_insert _dynarray_resize
  rw [if_pos hfull, if_pos hc]

theorem abs_insert_notfull {da : dynarray} {l : List Ptr} (h : Abs da l) (v : Ptr)
    (hnf : da.size ≠ da.capacity)
    (hidx : 0 ≤ Int.tmod (wrap_int (da.start + da.size)) da.capacity) :
    ∃ da1, dynarray_insert da v = Except.ok da1 ∧ Abs da1 (l ++ [v]) ∧
      da1.capacity = da.capacity ∧ da1.start = da.start := by
  have hsz := h.size_eq
  have hld := h.length_data
  have hle := h.size_le
  obtain ⟨da2, s1, s2, s3, s4⟩ := abs_insert_store h v (by omega) hidx
  refine ⟨da2, ?_, s2, s3, s4⟩
  unfold dynarray_insert
  rw [if_neg hnf]
  exact s1

theorem insert_notfull_negative (da : dynarray) (v : Ptr) (hne : da.capacity ≠ 0)
    (hnf : da.size ≠ da.capacity)
    (hneg : Int.tmod (wrap_int (da.start + da.size)) da.capacity < 0) :
    dynarray_insert da v = Except.error Fault.out_of_bounds := by
  unfold dynarray_insert
  rw [if_neg hnf]
  exact insert_store_negative da v hne hneg

theorem abs_insert_of_ok {da da1 : dynarray} {l : List Ptr} (h : Abs da l) (v : Ptr)
    (e : dynarray_insert da v = Except.ok da1) :
    Abs da1 (l ++ [v]) ∧
    ((da.size = da.capacity ∧ da1.capacity = 2 * da.capacity ∧ da1.start = 0) ∨
     (da.size ≠ da.capacity ∧ da1.capacity = da.capacity ∧ da1.start = da.start)) := by
  obtain ⟨h4, hmax, _⟩ := h.cap_bounds
  by_cases hfull : da.size = da.capacity
  · by_cases hcap : da.capacity = 1073741824
    · rw [insert_full_at_max da v hfull hcap] at e
      cases e
    · obtain ⟨da2, e2, a2, c2, s2⟩ := abs_insert_full h v hfull (by omega)
      rw [e2] at e
      have hd : da2 = da1 := Except.ok.inj e
      rw [← hd]
      exact ⟨a2, Or.inl ⟨hfull, c2, s2⟩⟩
  · by_cases hidx : 0 ≤ Int.tmod (wrap_int (da.start + da.size)) da.capacity
    · obtain ⟨da2, e2, a2, c2, s2⟩ := abs_insert_notfull h v hfull hidx
      rw [e2] at e
      have hd : da2 = da1 := Except.ok.inj e
      rw [← hd]
      exact ⟨a2, Or.inr ⟨hfull, c2, s2⟩⟩
    · rw [insert_notfull_negative da v (by omega) hfull (by omega)] at e
      cases e

theorem abs_set {da : dynarray} {l : List Ptr} (h : Abs da l) (i : Nat) (v : Ptr)
    (hi : i < l.length) :
    ∃ da1, dynarray_set da (i : Int) v = Except.ok da1 ∧ Abs da1 (l.set i v) ∧
      da1.size = da.size ∧ da1.capacity = da.capacity ∧ da1.start = da.start := by
  obtain ⟨h4, _, _⟩ := h.cap_bounds
  have hne : da.capacity ≠ 0 := by omega
  have hsz := h.size_eq
  have hle := h.size_le
  have hld := h.length_data
  obtain ⟨e, hp, _⟩ := h.idx i hi
  have hc : (i : Int) < da.size ∧ (i : Int) ≥ 0 := by omega
  refine ⟨{ da with data := da.data.set ((da.start + (i : Int)) % da.capacity).toNat v },
    ?_, ?_, rfl, rfl, rfl⟩
  · unfold dynarray_set
    rw [if_neg (not_not.mpr hc), e]
    simp only
    rw [slot_write_nat _ _ v hp]
  · refine ⟨h.start_range, h.cap_pow, ?_, ?_, ?_, ?_⟩
    · simp only [List.length_set]; exact hld
    · simp only [List.length_set]; exact hsz
    · simp only [List.length_set]; exact hle
    · intro j hj
      simp only [List.length_set] at hj ⊢
      have hs := h.slots j hj
      refine ⟨hs.1, ?_⟩
      by_cases hji : j = i
      · subst hji
        rw [List.getElem?_set_self hp, List.getElem?_set_self hi]
      · have hinj := emod_injective da.start da.capacity i j (by omega) (by omega)
          (fun e => hji e.symm)
        have hni : 0 ≤ (da.start + (i : Int)) % da.capacity := Int.emod_nonneg _ hne
        have hnj : 0 ≤ (da.start + (j : Int)) % da.capacity := Int.emod_nonneg _ hne
        have hne2 : ((da.start + (i : Int)) % da.capacity).toNat
            ≠ ((da.start + (j : Int)) % da.capacity).toNat := by omega
        rw [List.getElem?_set_ne hne2, List.getElem?_set_ne (fun e => hji e.symm)]
        exact hs.2

theorem set_ok_index {da da1 : dynarray} {idx : Int} {v : Ptr}
    (h : dynarray_set da idx v = Except.ok da1) : 0 ≤ idx ∧ idx < da.size := by
  unfold dynarray_set at h
  by_cases hc : idx < da.size ∧ idx ≥ 0
  · exact ⟨hc.2, hc.1⟩
  · rw [if_pos hc] at h
    cases h

theorem Reachable.abs {da : dynarray} (h : Reachable da) : ∃ l, Abs da l := by
  induction h with
  | create => exact ⟨[], Abs.create⟩
  | insert v _ hstep ih =>
    obtain ⟨l, hl⟩ := ih
    exact ⟨_, (abs_insert_of_ok hl v hstep).1⟩
  | set idx v _ hstep ih =>
    obtain ⟨l, hl⟩ := ih
    obtain ⟨h0, h1⟩ := set_ok_index hstep
    have hsz := hl.size_eq
    have hidx : idx = (idx.toNat : Int) := (Int.toNat_of_nonneg h0).symm
    obtain ⟨da2, e, ha, _⟩ := abs_set hl idx.toNat v (by omega)
    rw [← hidx, hstep] at e
    cases e
    exact ⟨_, ha⟩
  | remove_front _ hpos ih =>
    obtain ⟨l, hl⟩ := ih
    cases l with
    | nil =>
      have := hl.size_eq
      simp only [dynarray_size, List.length_nil] at *
      omega
    | cons x l => exact ⟨l, hl.remove_front⟩

theorem abs_nonempty {da : dynarray} {l : List Ptr} (h : Abs da l)
    (hne : 0 < dynarray_size da) : l ≠ [] := by
  intro e
  subst e
  have := h.size_eq
  simp only [dynarray_size, List.length_nil] at *
  omega

theorem reachable_bounds {da : dynarray} (h : Reachable da) :
    0 ≤ da.size ∧ da.size ≤ da.capacity ∧ 4 ≤ da.capacity ∧ da.capacity ≤ 1073741824 := by
  obtain ⟨l, hl⟩ := h.abs
  have h1 := hl.size_bounds
  have h2 := hl.cap_bounds
  omega
/-! ## Call sequences on a container -/

theorem da_run_reachable (ops : List DaOp) : ∀ (da da1 : dynarray), Reachable da →
    removals_on_nonempty da ops = true → da_run da ops = Except.ok da1 → Reachable da1 := by
  induction ops with
  | nil =>
    intro da da1 h _ e
    simp only [da_run] at e
    cases e
    exact h
  | cons op rest ih =>
    intro da da1 h hv e
    cases op with
    | insert v =>
      cases e2 : dynarray_insert da v with
      | error err =>
        simp only [da_run, da_step, e2] at e
        cases e
      | ok da2 =>
        simp only [removals_on_nonempty, e2] at hv
        simp only [da_run, da_step, e2] at e
        exact ih da2 da1 (Reachable.insert v h e2) hv e
    | remove_front =>
      simp only [removals_on_nonempty, Bool.and_eq_true, decide_eq_true_eq] at hv
      simp only [da_run, da_step] at e
      exact ih _ da1 (Reachable.remove_front h hv.1) hv.2 e

/-! ## The start index at the end of the `int` range -/

theorem insert_at (da : dynarray) (v : Ptr) (hne : da.capacity ≠ 0)
    (hnf : da.size ≠ da.capacity)
    (h0 : 0 ≤ Int.tmod (wrap_int (da.start + da.size)) da.capacity)
    (h1 : Int.tmod (wrap_int (da.start + da.size)) da.capacity < (da.data.length : Int)) :
    dynarray_insert da v = Except.ok
      { da with data := da.data.set (Int.tmod (wrap_int (da.start + da.size)) da.capacity).toNat v,
                size := wrap_int (da.size + 1) } := by
  unfold dynarray_insert insert_store c_mod
  rw [if_neg hnf, if_neg hne]
  simp only [slot_write, if_pos (And.intro h0 h1)]

theorem shape_insert {s z : Int} {da : dynarray} (v : Ptr) (h : Shape s z da)
    (hz : z = 0 ∨ z = 1 ∨ z = 2)
    (h0 : 0 ≤ Int.tmod (wrap_int (s + z)) 4) :
    ∃ da1, dynarray_insert da v = Except.ok da1 ∧ Shape s (z + 1) da1 := by
  obtain ⟨hs, hsz, hc, hl⟩ := h
  have hlt : Int.tmod (wrap_int (s + z)) 4 < 4 := Int.tmod_lt_of_pos _ (by decide)
  have e := insert_at da v (by rw [hc]; decide) (by rw [hsz, hc]; omega)
    (by rw [hs, hsz, hc]; exact h0) (by rw [hs, hsz, hc, hl]; exact hlt)
  refine ⟨_, e, hs, ?_, hc, ?_⟩
  · simp only
    rw [hsz, wrap_int_eq _ (by omega) (by omega)]
  · simp only [List.length_set]
    exact hl

theorem shape_insert_negative {s z : Int} {da : dynarray} (v : Ptr) (h : Shape s z da)
    (hz : z ≠ 4) (hneg : Int.tmod (wrap_int (s + z)) 4 < 0) :
    dynarray_insert da v = Except.error Fault.out_of_bounds := by
  obtain ⟨hs, hsz, hc, _⟩ := h
  exact insert_notfull_negative da v (by rw [hc]; decide) (by rw [hsz, hc]; exact hz)
    (by rw [hs, hsz, hc]; exact hneg)

theorem shape_remove_front {s z : Int} {da : dynarray} (h : Shape s z da) :
    Shape (wrap_int (s + 1)) (wrap_int (z - 1)) (dynarray_remove_front da) := by
  obtain ⟨hs, hsz, hc, hl⟩ := h
  exact ⟨by simp only [dynarray_remove_front, hs], by simp only [dynarray_remove_front, hsz],
    hc, hl⟩

theorem shape_cycle {s : Nat} {da : dynarray} (h : Shape (s : Int) 0 da)
    (hs : s < 2147483647) :
    ∃ da1, dynarray_insert da (Ptr.addr 1) = Except.ok da1 ∧ 0 < dynarray_size da1 ∧
      Shape ((s + 1 : Nat) : Int) 0 (dynarray_remove_front da1) := by
  have h0 : 0 ≤ Int.tmod (wrap_int ((s : Int) + 0)) 4 := by
    rw [Int.add_zero, wrap_int_eq _ (by omega) (by omega)]
    exact Int.tmod_nonneg 4 (by omega)
  obtain ⟨da1, e, h1⟩ := shape_insert (Ptr.addr 1) h (Or.inl rfl) h0
  refine ⟨da1, e, ?_, ?_⟩
  · rw [dynarray_size, h1.2.1]
    decide
  · have h2 := shape_remove_front h1
    have e1 : wrap_int ((s : Int) + 1) = ((s + 1 : Nat) : Int) := by
      rw [wrap_int_eq _ (by omega) (by omega)]
      push_cast
      rfl
    have e2 : wrap_int ((0 : Int) + 1 - 1) = 0 := by decide
    rw [e1, e2] at h2
    exact h2

theorem cycle_then_run : ∀ (n s : Nat) (da : dynarray),
    Shape (s : Int) 0 da → s + n ≤ 2147483647 →
    ∃ da1, Shape ((s + n : Nat) : Int) 0 da1 ∧ (Reachable da → Reachable da1) ∧
      ∀ rest, da_run da (cycle_then n rest) = da_run da1 rest ∧
        removals_on_nonempty da (cycle_then n rest) = removals_on_nonempty da1 rest := by
  intro n
  induction n with
  | zero =>
    intro s da h _
    exact ⟨da, h, fun r => r, fun _ => ⟨rfl, rfl⟩⟩
  | succ n ih =>
    intro s da h hb
    obtain ⟨da1, e, hpos, h1⟩ := shape_cycle h (by omega)
    obtain ⟨da2, h2, k2, r2⟩ := ih (s + 1) (dynarray_remove_front da1) h1 (by omega)
    have hidx : s + 1 + n = s + (n + 1) := by omega
    rw [hidx] at h2
    refine ⟨da2, h2, ?_, ?_⟩
    · intro r
      exact k2 (Reachable.remove_front (Reachable.insert _ r e) hpos)
    · intro rest
      constructor
      · simp only [cycle_then, da_run, da_step, e]
        exact (r2 rest).1
      · simp only [cycle_then, removals_on_nonempty, e, hpos, decide_True, Bool.true_and]
        exact (r2 rest).2

theorem shape_create : Shape ((0 : Nat) : Int) 0 dynarray_create :=
  ⟨rfl, rfl, rfl, rfl⟩

theorem reachable_at_int_max :
    ∃ da, Reachable da ∧ Shape 2147483647 0 da ∧
      ∀ rest, da_run dynarray_create (cycle_then 2147483647 rest) = da_run da rest ∧
        removals_on_nonempty dynarray_create (cycle_then 2147483647 rest)
          = removals_on_nonempty da rest := by
  obtain ⟨da, h, k, r⟩ := cycle_then_run 2147483647 0 dynarray_create shape_create
    (by omega)
  exact ⟨da, k Reachable.create, by simpa using h, r⟩

theorem count_inserts_cycle_then (rest : List DaOp) : ∀ n : Nat,
    count_inserts (cycle_then n rest) = n + count_inserts rest := by
  intro n
  induction n with
  | zero => simp only [cycle_then, Nat.zero_add]
  | succ n ih =>
    simp only [cycle_then, count_inserts, ih]
    omega

theorem count_removals_cycle_then (rest : List DaOp) : ∀ n : Nat,
    count_removals (cycle_then n rest) = n + count_removals rest := by
  intro n
  induction n with
  | zero => simp only [cycle_then, Nat.zero_add]
  | succ n ih =>
    simp only [cycle_then, count_removals, ih]
    omega

theorem reachable_at_int_max_one (v : Ptr) :
    ∃ da, Reachable da ∧ Shape 2147483647 1 da := by
  obtain ⟨da, hr, hs, _⟩ := reachable_at_int_max
  obtain ⟨d1, e1, s1⟩ := shape_insert v hs (Or.inl rfl) (by decide)
  exact ⟨d1, Reachable.insert v hr e1, s1⟩

theorem reachable_at_int_max_two (v w : Ptr) :
    ∃ da, Reachable da ∧ Shape 2147483647 2 da := by
  obtain ⟨da, hr, hs⟩ := reachable_at_int_max_one v
  obtain ⟨d1, e1, s1⟩ := shape_insert w hs (Or.inr (Or.inl rfl)) (by decide)
  exact ⟨d1, Reachable.insert w hr e1, s1⟩

theorem overflow_session_run :
    removals_on_nonempty dynarray_create overflow_session = true ∧
    da_run dynarray_create overflow_session = Except.error Fault.out_of_bounds := by
  obtain ⟨da, _, hs, hrun⟩ := reachable_at_int_max
  obtain ⟨d1, e1, s1⟩ := shape_insert (Ptr.addr 2) hs (Or.inl rfl) (by decide)
  obtain ⟨d2, e2, s2⟩ := shape_insert (Ptr.addr 3) s1 (Or.inr (Or.inl rfl)) (by decide)
  have e3 := shape_insert_negative (Ptr.addr 4) s2 (by decide) (by decide)
  have h := hrun [DaOp.insert (Ptr.addr 2), DaOp.insert (Ptr.addr 3), DaOp.insert (Ptr.addr 4)]
  unfold overflow_session
  rw [h.1, h.2]
  constructor
  · simp only [removals_on_nonempty, e1, e2, e3]
  · simp only [da_run, da_step, e1, e2, e3]

/-! ## The claims that the unreduced start breaks at the end of the `int` range -/

/-- C2 (the code departs from the claim): in the session of `2^31 - 1` pairs
of an append and a front removal followed by three appends, every removal
meets a non-empty container, and the last append stores at index −3, outside
the buffer, so that no `dynarray_get` follows. -/
theorem dynarray_get_after_removals_overflow :
    removals_on_nonempty dynarray_create overflow_session = true ∧
    da_run dynarray_create overflow_session = Except.error Fault.out_of_bounds ∧
    ∃ da, Reachable da ∧ da.start = 2147483647 ∧ dynarray_size da = 2 ∧ da.capacity = 4 ∧
      dynarray_insert da (Ptr.addr 4) = Except.error Fault.out_of_bounds := by
  obtain ⟨da, hr, hs⟩ := reachable_at_int_max_two (Ptr.addr 2) (Ptr.addr 3)
  exact ⟨overflow_session_run.1, overflow_session_run.2, da, hr, hs.1, hs.2.1, hs.2.2.1,
    shape_insert_negative (Ptr.addr 4) hs (by decide) (by decide)⟩

/-- C9 (the code departs from the claim): a container with `start = 2^31 - 1`,
size 2 and capacity 4 is reachable, and `dynarray_insert` on it computes the
slot index `(start + size) % capacity = -3` and stores outside the buffer
instead of appending. -/
theorem dynarray_insert_overflow (v : Ptr) :
    ∃ da, Reachable da ∧ da.start = 2147483647 ∧ dynarray_size da = 2 ∧ da.capacity = 4 ∧
      da.data.length = 4 ∧
      c_mod (wrap_int (da.start + da.size)) da.capacity = Except.ok (-3) ∧
      dynarray_insert da v = Except.error Fault.out_of_bounds := by
  obtain ⟨da, hr, hs⟩ := reachable_at_int_max_two (Ptr.addr 2) (Ptr.addr 3)
  refine ⟨da, hr, hs.1, hs.2.1, hs.2.2.1, hs.2.2.2, ?_,
    shape_insert_negative v hs (by decide) (by decide)⟩
  rw [hs.1, hs.2.1, hs.2.2.1]
  decide

/-- C10 (the code departs from the claim): the session of `2^31 - 1` pairs of
an append and a front removal followed by three appends has `n = 2^31 + 2`
appends and `m = 2^31 - 1 ≤ n` removals, and its last append fails, so that no
size `n − m` is returned. -/
theorem dynarray_size_interleaving_overflow :
    count_inserts overflow_session = 2147483650 ∧
    count_removals overflow_session = 2147483647 ∧
    count_removals overflow_session ≤ count_inserts overflow_session ∧
    da_run dynarray_create overflow_session = Except.error Fault.out_of_bounds := by
  have h1 : count_inserts overflow_session = 2147483650 := by
    unfold overflow_session
    rw [count_inserts_cycle_then]
    rfl
  have h2 : count_removals overflow_session = 2147483647 := by
    unfold overflow_session
    rw [count_removals_cycle_then]
    rfl
  refine ⟨h1, h2, ?_, overflow_session_run.2⟩
  rw [h1, h2]
  decide

/-- C11 (the code departs from the claim): a container with
`start = 2^31 - 1` and one element is reachable, and on it the second pair of
`dynarray_remove_front` and `dynarray_insert` stores at index −3, outside the
buffer. -/
theorem remove_then_insert_overflow (x y : Ptr) :
    ∃ da, Reachable da ∧ 0 < dynarray_size da ∧ da.start = 2147483647 ∧
      remove_then_insert_all da [x, y] = Except.error Fault.out_of_bounds := by
  obtain ⟨da, hr, hs⟩ := reachable_at_int_max_one (Ptr.addr 2)
  have r1 := shape_remove_front hs
  have w1 : wrap_int ((2147483647 : Int) + 1) = -2147483648 := by decide
  have w2 : wrap_int ((1 : Int) - 1) = 0 := by decide
  rw [w1, w2] at r1
  obtain ⟨d1, e1, s1⟩ := shape_insert x r1 (Or.inl rfl) (by decide)
  have r2 := shape_remove_front s1
  have w3 : wrap_int ((-2147483648 : Int) + 1) = -2147483647 := by decide
  have w4 : wrap_int ((0 : Int) + 1 - 1) = 0 := by decide
  rw [w3, w4] at r2
  have e2 := shape_insert_negative y r2 (by decide) (by decide)
  refine ⟨da, hr, ?_, hs.1, ?_⟩
  · rw [dynarray_size, hs.2.1]
    decide
  · simp only [remove_then_insert_all, e1, e2]

/-- C20 (the code departs from the claim): in the reachable container with
`start = 2^31 - 1`, size 2 and capacity 4 the index computed by
`dynarray_insert` is −3, not in `[0, capacity)`, and the store is outside the
buffer. -/
theorem insert_index_out_of_bounds (v : Ptr) :
    ∃ da, Reachable da ∧ da.size ≠ da.capacity ∧
      c_mod (wrap_int (da.start + da.size)) da.capacity = Except.ok (-3) ∧
      ¬ (0 ≤ (-3 : Int)) ∧
      dynarray_insert da v = Except.error Fault.out_of_bounds := by
  obtain ⟨da, hr, hs⟩ := reachable_at_int_max_two (Ptr.addr 2) (Ptr.addr 3)
  refine ⟨da, hr, ?_, ?_, by decide, shape_insert_negative v hs (by decide) (by decide)⟩
  · rw [hs.2.1, hs.2.2.1]
    decide
  · rw [hs.1, hs.2.1, hs.2.2.1]
    decide

/-! ## Call sequences on a queue -/

theorem abs_insert_total {da : dynarray} {l : List Ptr} (h : Abs da l) (v : Ptr)
    (h0 : 0 ≤ da.start) (h1 : da.start + da.size < 2147483648)
    (hcap : da.size = da.capacity → da.capacity < 1073741824) :
    ∃ da1, dynarray_insert da v = Except.ok da1 ∧ Abs da1 (l ++ [v]) ∧
      ((da.size = da.capacity ∧ da1.capacity = 2 * da.capacity ∧ da1.start = 0) ∨
       (da.size ≠ da.capacity ∧ da1.capacity = da.capacity ∧ da1.start = da.start)) := by
  have hb := h.size_bounds
  by_cases hfull : da.size = da.capacity
  · obtain ⟨da1, e, a, c, s⟩ := abs_insert_full h v hfull (hcap hfull)
    exact ⟨da1, e, a, Or.inl ⟨hfull, c, s⟩⟩
  · have hidx := (phys_of_nonneg (da.start + da.size) da.capacity h.cap_pow (by omega) h1).1
    obtain ⟨da1, e, a, c, s⟩ := abs_insert_notfull h v hfull hidx
    exact ⟨da1, e, a, Or.inr ⟨hfull, c, s⟩⟩

theorem abs_get_front {da : dynarray} {x : Ptr} {l : List Ptr} (h : Abs da (x :: l))
    (h0 : 0 ≤ da.start) (hlt : da.start < da.capacity) :
    dynarray_get_front da = Except.ok x := by
  have hld := h.length_data
  have hs := (h.slots 0 (by simp only [List.length_cons]; omega)).2
  have hm : (da.start + ((0 : Nat) : Int)) % da.capacity = da.start := by
    rw [Nat.cast_zero, Int.add_zero]
    exact Int.emod_eq_of_lt h0 hlt
  rw [hm] at hs
  unfold dynarray_get_front
  have hc : da.start = ((da.start.toNat : Nat) : Int) := (Int.toNat_of_nonneg h0).symm
  rw [hc]
  exact slot_read_nat _ _ _ (hs.trans List.getElem?_cons_zero)

theorem enqueue_all_abs (vs : List Ptr) : ∀ (q : queue) (l : List Ptr), Abs q.array l →
    q.array.start = 0 →
    (q.array.capacity = 4 ∨ q.array.capacity < 2 * (l.length : Int)) →
    l.length + vs.length ≤ 1073741824 →
    ∃ q1, enqueue_all q vs = Except.ok q1 ∧ Abs q1.array (l ++ vs) ∧ q1.array.start = 0 ∧
      (q1.array.capacity = 4 ∨ q1.array.capacity < 2 * ((l ++ vs).length : Int)) ∧
      (Reachable q.array → Reachable q1.array) := by
  induction vs with
  | nil =>
    intro q l h h0 hc _
    exact ⟨q, rfl, by simpa using h, h0, by simpa using hc, fun r => r⟩
  | cons v vs ih =>
    intro q l h h0 hc hlen
    have hsz := h.size_eq
    simp only [List.length_cons] at hlen
    obtain ⟨da2, e, ha, hcase⟩ := abs_insert_total h v (by omega) (by omega) (by omega)
    have hs2 : da2.start = 0 := by
      rcases hcase with ⟨_, _, s⟩ | ⟨_, _, s⟩
      · exact s
      · exact s.trans h0
    have hc2 : da2.capacity = 4 ∨ da2.capacity < 2 * ((l ++ [v]).length : Int) := by
      simp only [List.length_append, List.length_singleton]
      push_cast
      rcases hcase with ⟨f, c, _⟩ | ⟨_, c, _⟩
      · right; omega
      · rcases hc with c4 | c2
        · left; omega
        · right; omega
    obtain ⟨q1, e1, ha1, hs1, hc1, hr1⟩ := ih { q with array := da2 } (l ++ [v]) ha hs2 hc2
      (by simp only [List.length_append, List.length_singleton]; omega)
    refine ⟨q1, ?_, by simpa using ha1, hs1, by simpa using hc1, ?_⟩
    · simp only [enqueue_all, queue_enqueue, e]
      exact e1
    · intro r
      exact hr1 (Reachable.insert v r e)

theorem dequeue_n_abs (l : List Ptr) : ∀ (q : queue), Abs q.array l →
    0 ≤ q.array.start → q.array.start + q.array.size ≤ q.array.capacity →
    ∃ q2, dequeue_n q l.length = Except.ok (l, q2) ∧ queue_size q2 = 0 := by
  induction l with
  | nil =>
    intro q h _ _
    refine ⟨q, rfl, ?_⟩
    simpa [queue_size, dynarray_size] using h.size_eq
  | cons x l ih =>
    intro q h h0 hb
    have hsz := h.size_eq
    have hbd := h.size_bounds
    simp only [List.length_cons] at hsz
    push_cast at hsz
    have hne : ¬ (queue_isempty q ≠ 0) := by
      have : dynarray_size q.array ≠ 0 := by
        simp only [dynarray_size]; omega
      simp only [queue_isempty, if_neg this]
      decide
    have hfront : dynarray_get_front q.array = Except.ok x :=
      abs_get_front h h0 (by omega)
    have hst : (dynarray_remove_front q.array).start = q.array.start + 1 := by
      simp only [dynarray_remove_front]
      exact wrap_int_eq _ (by omega) (by omega)
    have hsi : (dynarray_remove_front q.array).size = q.array.size - 1 := by
      simp only [dynarray_remove_front]
      exact wrap_int_eq _ (by omega) (by omega)
    have hcp : (dynarray_remove_front q.array).capacity = q.array.capacity := rfl
    obtain ⟨q2, e2, hz⟩ := ih { q with array := dynarray_remove_front q.array }
      h.remove_front (by simp only [hst]; omega) (by simp only [hst, hsi, hcp]; omega)
    refine ⟨q2, ?_, hz⟩
    simp only [List.length_cons, dequeue_n, queue_dequeue, if_neg hne, hfront, e2]

theorem enqueue_all_append (a b : List Ptr) : ∀ q : queue,
    enqueue_all q (a ++ b) =
      match enqueue_all q a with
      | Except.error e => Except.error e
      | Except.ok q1 => enqueue_all q1 b := by
  induction a with
  | nil => intro q; rfl
  | cons v a ih =>
    intro q
    simp only [List.cons_append, enqueue_all]
    cases queue_enqueue q v with
    | error e => rfl
    | ok q1 => exact ih q1

theorem filled_with (n : Nat) (hn : n ≤ 1073741824) (v : Ptr) :
    ∃ q, enqueue_all queue_create (List.replicate n v) = Except.ok q ∧
      Reachable q.array ∧ q.array.size = (n : Int) ∧ (n : Int) ≤ q.array.capacity ∧
      q.array.capacity ≤ 1073741824 := by
  obtain ⟨q, e, ha, _, _, hr⟩ := enqueue_all_abs (List.replicate n v) queue_create []
    Abs.create rfl (Or.inl rfl)
    (by rw [List.length_nil, List.length_replicate, Nat.zero_add]; exact hn)
  have hsz := ha.size_eq
  have hb := ha.size_bounds
  rw [List.nil_append, List.length_replicate] at hsz
  exact ⟨q, e, hr Reachable.create, hsz, by omega, by omega⟩

theorem filled_to_the_limit (v : Ptr) :
    ∃ q, enqueue_all queue_create (List.replicate 1073741824 v) = Except.ok q ∧
      Reachable q.array ∧ q.array.size = 1073741824 ∧ q.array.capacity = 1073741824 := by
  obtain ⟨q, e, hr, hs, hc1, hc2⟩ := filled_with 1073741824 (Nat.le_refl _) v
  have hs1 : q.array.size = 1073741824 := by
    rw [hs]
    rfl
  have hc : q.array.capacity = 1073741824 := by
    have h1 : ((1073741824 : Nat) : Int) = 1073741824 := rfl
    rw [h1] at hc1
    omega
  exact ⟨q, e, hr, hs1, hc⟩

/-! ## The claims on the queue and on single calls -/

/-- C1 (the code departs from the claim): on four enqueues, four dequeues, one
enqueue and one dequeue, the last `queue_dequeue` is applied to a queue of size
one and reads the buffer outside its four slots, where the FIFO model list
returns the fifth enqueued value. -/
theorem queue_dequeue_faults_after_drain :
    queue_run queue_create drain_then_enqueue = Except.error Fault.out_of_bounds ∧
    (∃ q, queue_run queue_create (drain_then_enqueue.take 9)
        = Except.ok ([Ptr.addr 1, Ptr.addr 2, Ptr.addr 3, Ptr.addr 4], q) ∧
      queue_size q = 1 ∧ q.array.start = 4 ∧ q.array.capacity = 4 ∧
      queue_dequeue q = Except.error Fault.out_of_bounds) ∧
    fifo_model_run [] drain_then_enqueue
      = ([Ptr.addr 1, Ptr.addr 2, Ptr.addr 3, Ptr.addr 4, Ptr.addr 5], []) := by
  refine ⟨by decide, ⟨_, rfl, ?_, ?_, ?_, ?_⟩, by decide⟩ <;> decide

/-- C3 (the code departs from the claim): after four appends, four front
removals and one append the container holds one element, `dynarray_get(da, 0)`
returns it, and `dynarray_get_front` reads slot `start = 4` of a buffer of four
slots. -/
theorem dynarray_get_front_reads_outside :
    removals_on_nonempty dynarray_create refill_after_drain = true ∧
    ∃ da, da_run dynarray_create refill_after_drain = Except.ok da ∧
      0 < dynarray_size da ∧ da.start = 4 ∧ da.data.length = 4 ∧
      dynarray_get da 0 = Except.ok (Ptr.addr 5) ∧
      dynarray_get_front da = Except.error Fault.out_of_bounds := by
  refine ⟨by decide, _, rfl, ?_, ?_, ?_, ?_, ?_⟩ <;> decide

/-- C4 (the code departs from the claim): `dynarray_remove_front` decrements
the size and leaves capacity and buffer as they are, and it sets `start` to
`start + 1` (an `int` sum), which after four appends and three removals is 4 and not
`(3 + 1) mod 4 = 0`. -/
theorem dynarray_remove_front_start_not_reduced :
    (∀ da : dynarray, (dynarray_remove_front da).start = wrap_int (da.start + 1) ∧
      (dynarray_remove_front da).size = wrap_int (da.size - 1) ∧
      (dynarray_remove_front da).capacity = da.capacity ∧
      (dynarray_remove_front da).data = da.data) ∧
    ∃ da, da_run dynarray_create front_in_last_slot = Except.ok da ∧
      0 < da.size ∧ da.start = 3 ∧ da.capacity = 4 ∧
      (dynarray_remove_front da).start = 4 ∧
      (da.start + 1) % da.capacity = 0 := by
  refine ⟨fun da => ⟨rfl, rfl, rfl, rfl⟩, _, rfl, ?_, ?_, ?_, ?_, ?_⟩ <;> decide

/-- C5 (the code departs from the claim): the state after four appends and
four front removals is reachable and has `start = capacity = 4`, so
`start < capacity` is not an invariant. -/
theorem start_reaches_capacity :
    removals_on_nonempty dynarray_create fill_and_drain = true ∧
    ∃ da, da_run dynarray_create fill_and_drain = Except.ok da ∧ Reachable da ∧
      da.start = 4 ∧ da.capacity = 4 ∧ ¬ (da.start < da.capacity) := by
  refine ⟨by decide, _, rfl, ?_, ?_, ?_, ?_⟩
  · exact da_run_reachable fill_and_drain _ _ Reachable.create (by decide) rfl
  all_goals decide

/-- C7: on a queue of size 0 `queue_dequeue` returns `NULL` and removes
nothing: buffer, size, start and capacity of the container are as before and
`queue_size` is still 0. -/
theorem queue_dequeue_empty (q : queue) (hempty : queue_size q = 0) :
    ∃ q1, queue_dequeue q = Except.ok (NULL, q1) ∧
      q1.array.data = q.array.data ∧ q1.array.size = q.array.size ∧
      q1.array.start = q.array.start ∧ q1.array.capacity = q.array.capacity ∧
      queue_size q1 = 0 := by
  refine ⟨q, ?_, rfl, rfl, rfl, rfl, hempty⟩
  simp only [queue_size] at hempty
  have hne : queue_isempty q ≠ 0 := by
    simp only [queue_isempty, if_pos hempty]
    decide
  simp only [queue_dequeue, if_pos hne]

/-- Witness of C7 on the queue returned by `queue_create`. -/
theorem queue_dequeue_empty_witness :
    queue_size queue_create = 0 ∧
    ∃ q1, queue_dequeue queue_create = Except.ok (NULL, q1) ∧
      q1.array.data = queue_create.array.data ∧ q1.array.size = queue_create.array.size ∧
      q1.array.start = queue_create.array.start ∧
      q1.array.capacity = queue_create.array.capacity ∧
      queue_size q1 = 0 :=
  ⟨by decide, queue_dequeue_empty queue_create (by decide)⟩

/-- C14 (as stated, refuted): on the empty container returned by
`dynarray_create`, `dynarray_get_front` returns a value (the indeterminate
content of slot 0) and `dynarray_remove_front` returns a container of size −1
whose start is advanced to 1; neither fails. -/
theorem empty_front_calls_do_not_fail :
    dynarray_size dynarray_create = 0 ∧
    dynarray_get_front dynarray_create = Except.ok Ptr.indeterminate ∧
    (dynarray_remove_front dynarray_create).size = -1 ∧
    (dynarray_remove_front dynarray_create).start = 1 := by
  decide

/-- C14 (amended): on an empty container whose start lies inside the buffer,
`dynarray_get_front` makes no emptiness check and returns the content of slot
`start`, and `dynarray_remove_front` makes none and gives size −1 and
`start + 1` (an `int` sum) with capacity and buffer as before; the check is the caller's:
`queue_dequeue` returns `NULL` and the queue as it was. -/
theorem empty_front_calls_unchecked (da : dynarray) (hempty : dynarray_size da = 0)
    (h0 : 0 ≤ da.start) (h1 : da.start < (da.data.length : Int)) :
    (∃ x, dynarray_get_front da = Except.ok x ∧ da.data[da.start.toNat]? = some x) ∧
    (dynarray_remove_front da).size = -1 ∧
    (dynarray_remove_front da).start = wrap_int (da.start + 1) ∧
    (dynarray_remove_front da).capacity = da.capacity ∧
    (dynarray_remove_front da).data = da.data ∧
    queue_dequeue { array := da } = Except.ok (NULL, { array := da }) := by
  simp only [dynarray_size] at hempty
  have hp : da.start.toNat < da.data.length := by omega
  refine ⟨⟨da.data[da.start.toNat], ?_, List.getElem?_eq_getElem hp⟩, ?_, rfl, rfl, rfl, ?_⟩
  · simp only [dynarray_get_front, slot_read, if_pos (And.intro h0 h1),
      List.getElem?_eq_getElem hp]
  · simp only [dynarray_remove_front, hempty]
    decide
  · have hne : queue_isempty { array := da } ≠ 0 := by
      simp only [queue_isempty, dynarray_size, if_pos hempty]
      decide
    simp only [queue_dequeue, if_pos hne]

/-- Witness of the amended C14 on the container returned by `dynarray_create`. -/
theorem empty_front_calls_unchecked_witness :
    dynarray_size dynarray_create = 0 ∧
    (∃ x, dynarray_get_front dynarray_create = Except.ok x ∧
      dynarray_create.data[dynarray_create.start.toNat]? = some x) ∧
    (dynarray_remove_front dynarray_create).size = -1 ∧
    (dynarray_remove_front dynarray_create).start = wrap_int (dynarray_create.start + 1) ∧
    (dynarray_remove_front dynarray_create).capacity = dynarray_create.capacity ∧
    (dynarray_remove_front dynarray_create).data = dynarray_create.data ∧
    queue_dequeue { array := dynarray_create }
      = Except.ok (NULL, { array := dynarray_create }) :=
  ⟨by decide, empty_front_calls_unchecked dynarray_create (by decide) (by decide) (by decide)⟩

/-- C17: `dynarray_create` returns a container with size 0, capacity 4,
start 0 and four slots, and `queue_create` a queue over such a container, of
`queue_size` 0. -/
theorem dynarray_create_fields :
    dynarray_create.size = 0 ∧ dynarray_create.capacity = 4 ∧ dynarray_create.start = 0 ∧
    dynarray_create.data.length = 4 ∧ dynarray_size dynarray_create = 0 ∧
    queue_create.array = dynarray_create ∧ queue_size queue_create = 0 := by
  decide

theorem push_all_nodes (vs : List Ptr) : ∀ s : stack,
    (push_all s vs).list.nodes = vs.reverse ++ s.list.nodes := by
  induction vs with
  | nil => intro s; rfl
  | cons v vs ih =>
    intro s
    simp only [push_all, ih, stack_push, list_insert, List.reverse_cons, List.append_assoc,
      List.singleton_append]

theorem pop_n_nodes (l : List Ptr) : ∀ (s : stack) (rest : List Ptr),
    s.list.nodes = l ++ rest →
    pop_n s l.length = Except.ok (l, { list := { nodes := rest } }) := by
  induction l with
  | nil =>
    intro s rest h
    cases s with
    | mk sl =>
      cases sl with
      | mk n =>
        simp only [List.nil_append] at h
        subst h
        rfl
  | cons x l ih =>
    intro s rest h
    have hp : stack_pop s = Except.ok (x, { s with list := { nodes := l ++ rest } }) := by
      simp only [stack_pop, pop_value, h, List.cons_append]
    simp only [List.length_cons, pop_n, hp]
    rw [ih { s with list := { nodes := l ++ rest } } rest rfl]

/-- C18: pushing `v1 .. vn` on a new stack and popping `n` times returns
`vn .. v1` in this order; before the first pop `stack_top` returns `vn`, and
after the last pop `stack_size` is 0 and `stack_isempty` is 1. -/
theorem stack_push_all_then_pop_all (vs : List Ptr) :
    (∀ v, vs.getLast? = some v → stack_top (push_all stack_create vs) = Except.ok v) ∧
    ∃ s2, pop_n (push_all stack_create vs) vs.length = Except.ok (vs.reverse, s2) ∧
      stack_size s2 = 0 ∧ stack_isempty s2 = 1 := by
  have hn : (push_all stack_create vs).list.nodes = vs.reverse := by
    rw [push_all_nodes]
    simp only [stack_create, list_create, List.append_nil]
  constructor
  · intro v hv
    obtain ⟨ys, hys⟩ := List.getLast?_eq_some_iff.mp hv
    have hrev : (push_all stack_create vs).list.nodes = v :: ys.reverse := by
      rw [hn, hys, List.reverse_append, List.reverse_singleton, List.singleton_append]
    simp only [stack_top, top_value, hrev]
  · have hp := pop_n_nodes vs.reverse (push_all stack_create vs) []
      (by rw [hn, List.append_nil])
    rw [List.length_reverse] at hp
    exact ⟨_, hp, rfl, rfl⟩

/-- C19: after receiving two calls, answering one and receiving a third, the
two calls waiting in the queue are different records and both carry the
identifier 2. -/
theorem call_ids_not_unique :
    ∃ c, main_loop callcenter_start two_in_one_out_one_in = Except.ok c ∧
      queue_size c.call_queue = 2 ∧
      dynarray_get c.call_queue.array 0 = Except.ok (Ptr.addr 1) ∧
      dynarray_get c.call_queue.array 1 = Except.ok (Ptr.addr 2) ∧
      waiting_id c 0 = some 2 ∧ waiting_id c 1 = some 2 := by
  refine ⟨_, rfl, ?_, ?_, ?_, ?_, ?_⟩ <;> decide

/-! ## The claims that hold up to the capacity limit of `int` -/

/-- C6 (as stated, refuted): enqueueing `2^30 + 1` values on a new queue does
not return: the container is full at capacity `2^30`, the `int` product
`2 * capacity` is `-2^31`, and the assertion of `_dynarray_resize` fails. -/
theorem enqueue_beyond_capacity_limit :
    enqueue_all queue_create (List.replicate 1073741825 NULL)
      = Except.error Fault.assert_failed := by
  obtain ⟨q, e, _, hs, hc⟩ := filled_to_the_limit NULL
  have hi := insert_full_at_max q.array NULL (hs.trans hc.symm) hc
  show enqueue_all queue_create (List.replicate (1073741824 + 1) NULL) = _
  rw [List.replicate_succ', enqueue_all_append, e]
  simp only [enqueue_all, queue_enqueue, hi]

/-- C6 (amended): for `n ≤ 2^30`, enqueueing `v1 .. vn` on a new queue and
calling `queue_dequeue` `n` times returns `v1 .. vn` in this order and leaves
the queue empty; after enqueueing `A`, `B`, `C`, `queue_front` returns `A` and
`queue_size` 3, `queue_dequeue` returns `A`, and then `queue_size` is 2 and
`queue_front` returns `B`. -/
theorem queue_enqueue_all_then_dequeue_all (vs : List Ptr) (A B C : Ptr)
    (hlen : vs.length ≤ 1073741824) :
    (∃ q1 q2, enqueue_all queue_create vs = Except.ok q1 ∧
      dequeue_n q1 vs.length = Except.ok (vs, q2) ∧
      queue_size q2 = 0 ∧ queue_isempty q2 = 1) ∧
    (∃ q1 q2, enqueue_all queue_create [A, B, C] = Except.ok q1 ∧
      queue_front q1 = Except.ok A ∧ queue_size q1 = 3 ∧
      queue_dequeue q1 = Except.ok (A, q2) ∧ queue_size q2 = 2 ∧
      queue_front q2 = Except.ok B) := by
  constructor
  · obtain ⟨q1, e1, ha, h0, _, _⟩ := enqueue_all_abs vs queue_create [] Abs.create rfl
      (Or.inl rfl) (by simpa using hlen)
    rw [List.nil_append] at ha
    have hb := ha.size_bounds
    obtain ⟨q2, e2, hz⟩ := dequeue_n_abs vs q1 ha (by omega) (by omega)
    refine ⟨q1, q2, e1, e2, hz, ?_⟩
    simp only [queue_size] at hz
    simp only [queue_isempty, if_pos hz]
  · exact ⟨_, _, rfl, rfl, rfl, rfl, rfl, rfl⟩

/-- Witness of the amended C6 on two values. -/
theorem queue_enqueue_all_then_dequeue_all_witness :
    [Ptr.addr 1, Ptr.addr 2].length ≤ 1073741824 ∧
    ((∃ q1 q2, enqueue_all queue_create [Ptr.addr 1, Ptr.addr 2] = Except.ok q1 ∧
      dequeue_n q1 [Ptr.addr 1, Ptr.addr 2].length
        = Except.ok ([Ptr.addr 1, Ptr.addr 2], q2) ∧
      queue_size q2 = 0 ∧ queue_isempty q2 = 1) ∧
    (∃ q1 q2, enqueue_all queue_create [Ptr.addr 7, Ptr.addr 8, Ptr.addr 9] = Except.ok q1 ∧
      queue_front q1 = Except.ok (Ptr.addr 7) ∧ queue_size q1 = 3 ∧
      queue_dequeue q1 = Except.ok (Ptr.addr 7, q2) ∧ queue_size q2 = 2 ∧
      queue_front q2 = Except.ok (Ptr.addr 8))) :=
  ⟨by decide, queue_enqueue_all_then_dequeue_all [Ptr.addr 1, Ptr.addr 2] (Ptr.addr 7)
    (Ptr.addr 8) (Ptr.addr 9) (by decide)⟩

/-- C8 (as stated, refuted): the container reached by `2^30` appends is full
at capacity `2^30`, and `dynarray_insert` on it fails the assertion of
`_dynarray_resize` instead of doubling the capacity, the `int` product
`2 * capacity` being `-2^31`. -/
theorem growth_fails_at_capacity_limit :
    ∃ q, enqueue_all queue_create (List.replicate 1073741824 NULL) = Except.ok q ∧
      Reachable q.array ∧ q.array.size = q.array.capacity ∧
      dynarray_insert q.array NULL = Except.error Fault.assert_failed := by
  obtain ⟨q, e, hr, hs, hc⟩ := filled_to_the_limit NULL
  exact ⟨q, e, hr, hs.trans hc.symm, insert_full_at_max q.array NULL (hs.trans hc.symm) hc⟩

/-- C8 (amended): on a reachable container with `size = capacity < 2^30`,
`dynarray_insert` returns a container of twice the capacity with `start = 0`
in which `dynarray_get(i)` returns, for every `0 ≤ i <` old size, the value it
returned before. -/
theorem dynarray_insert_growth_preserves (da : dynarray) (v : Ptr) (hr : Reachable da)
    (hfull : da.size = da.capacity) (hcap : da.capacity < 1073741824) :
    ∃ da1, dynarray_insert da v = Except.ok da1 ∧
      da1.capacity = 2 * da.capacity ∧ da1.start = 0 ∧
      ∀ i : Int, 0 ≤ i → i < da.size →
        ∃ x, dynarray_get da i = Except.ok x ∧ dynarray_get da1 i = Except.ok x := by
  obtain ⟨l, hl⟩ := hr.abs
  obtain ⟨da1, e, ha, hc, hs⟩ := abs_insert_full hl v hfull hcap
  refine ⟨da1, e, hc, hs, ?_⟩
  intro i h0 hi
  have hsz := hl.size_eq
  have hlt : i.toNat < l.length := by omega
  have hx : l[i.toNat]? = some l[i.toNat] := List.getElem?_eq_getElem hlt
  have hx1 : (l ++ [v])[i.toNat]? = some l[i.toNat] := by
    rw [List.getElem?_append_left hlt, hx]
  have hcast : ((i.toNat : Nat) : Int) = i := Int.toNat_of_nonneg h0
  have g := hl.get i.toNat _ hx
  have g1 := ha.get i.toNat _ hx1
  rw [hcast] at g g1
  exact ⟨_, g, g1⟩

/-- Witness of the amended C8 on a full buffer that wraps (`start = 1`). -/
theorem dynarray_insert_growth_preserves_witness :
    Reachable wrapped_full_state ∧ wrapped_full_state.size = wrapped_full_state.capacity ∧
    wrapped_full_state.capacity < 1073741824 ∧ wrapped_full_state.start ≠ 0 ∧
    ∃ da1, dynarray_insert wrapped_full_state (Ptr.addr 6) = Except.ok da1 ∧
      da1.capacity = 2 * wrapped_full_state.capacity ∧ da1.start = 0 ∧
      ∀ i : Int, 0 ≤ i → i < wrapped_full_state.size →
        ∃ x, dynarray_get wrapped_full_state i = Except.ok x ∧
          dynarray_get da1 i = Except.ok x :=
  ⟨da_run_reachable wrapped_full _ _ Reachable.create (by decide) (by decide),
   by decide, by decide, by decide,
   dynarray_insert_growth_preserves wrapped_full_state (Ptr.addr 6)
    (da_run_reachable wrapped_full _ _ Reachable.create (by decide) (by decide)) (by decide)
    (by decide)⟩

/-- C12: in a reachable container two different logical indices below the size
have different physical slots, each inside the buffer, and `dynarray_get`
reads exactly these slots. -/
theorem physical_index_injective (da : dynarray) (i j : Int) (hr : Reachable da)
    (hi0 : 0 ≤ i) (hi : i < dynarray_size da) (hj0 : 0 ≤ j) (hj : j < dynarray_size da)
    (hij : i ≠ j) :
    ∃ p q, physical_index da i = Except.ok p ∧ physical_index da j = Except.ok q ∧
      dynarray_get da i = slot_read da.data p ∧ dynarray_get da j = slot_read da.data q ∧
      p ≠ q := by
  obtain ⟨l, hl⟩ := hr.abs
  have hsz := hl.size_eq
  have hle := hl.size_le
  have hld := hl.length_data
  obtain ⟨h4, _, _⟩ := hl.cap_bounds
  have hne : da.capacity ≠ 0 := by omega
  simp only [dynarray_size] at hi hj
  have ci : ((i.toNat : Nat) : Int) = i := Int.toNat_of_nonneg hi0
  have cj : ((j.toNat : Nat) : Int) = j := Int.toNat_of_nonneg hj0
  obtain ⟨pi, _, _⟩ := hl.idx i.toNat (by omega)
  obtain ⟨pj, _, _⟩ := hl.idx j.toNat (by omega)
  rw [ci] at pi
  rw [cj] at pj
  refine ⟨_, _, pi, pj, ?_, ?_, ?_⟩
  · have hc : i < da.size ∧ i ≥ 0 := ⟨hi, hi0⟩
    simp only [dynarray_get, if_neg (not_not.mpr hc), pi]
  · have hc : j < da.size ∧ j ≥ 0 := ⟨hj, hj0⟩
    simp only [dynarray_get, if_neg (not_not.mpr hc), pj]
  · have hinj := emod_injective da.start da.capacity i.toNat j.toNat (by omega) (by omega)
      (by omega)
    rw [ci, cj] at hinj
    have hni : 0 ≤ (da.start + i) % da.capacity := Int.emod_nonneg _ hne
    have hnj : 0 ≤ (da.start + j) % da.capacity := Int.emod_nonneg _ hne
    omega

/-- Witness of C12 on a full buffer that wraps, at logical indices 0 and 3. -/
theorem physical_index_injective_witness :
    Reachable wrapped_full_state ∧
    ∃ p q, physical_index wrapped_full_state 0 = Except.ok p ∧
      physical_index wrapped_full_state 3 = Except.ok q ∧
      dynarray_get wrapped_full_state 0 = slot_read wrapped_full_state.data p ∧
      dynarray_get wrapped_full_state 3 = slot_read wrapped_full_state.data q ∧
      p ≠ q :=
  ⟨da_run_reachable wrapped_full _ _ Reachable.create (by decide) (by decide),
   physical_index_injective wrapped_full_state 0 3
    (da_run_reachable wrapped_full _ _ Reachable.create (by decide) (by decide))
    (by decide) (by decide) (by decide) (by decide) (by decide)⟩

/-- C13: on a reachable container `dynarray_get(da, idx)` and
`dynarray_set(da, idx, v)` fail exactly when `idx < 0` or `idx ≥ size`, the
failure being the assertion, which leaves no changed container behind; for
`0 ≤ idx < size`, `dynarray_get` returns the content of the slot of `idx`. -/
theorem dynarray_get_set_fail_iff (da : dynarray) (idx : Int) (v : Ptr) (hr : Reachable da) :
    ((∃ e, dynarray_get da idx = Except.error e) ↔ (idx < 0 ∨ idx ≥ dynarray_size da)) ∧
    ((∃ e, dynarray_set da idx v = Except.error e) ↔ (idx < 0 ∨ idx ≥ dynarray_size da)) ∧
    ((idx < 0 ∨ idx ≥ dynarray_size da) →
      dynarray_get da idx = Except.error Fault.assert_failed ∧
      dynarray_set da idx v = Except.error Fault.assert_failed) ∧
    ((0 ≤ idx ∧ idx < dynarray_size da) →
      ∃ p x, physical_index da idx = Except.ok p ∧ slot_read da.data p = Except.ok x ∧
        dynarray_get da idx = Except.ok x) := by
  obtain ⟨l, hl⟩ := hr.abs
  have hsz := hl.size_eq
  simp only [dynarray_size]
  have hbad : (idx < 0 ∨ idx ≥ da.size) →
      dynarray_get da idx = Except.error Fault.assert_failed ∧
      dynarray_set da idx v = Except.error Fault.assert_failed := by
    intro hb
    have hc : ¬ (idx < da.size ∧ idx ≥ 0) := by omega
    exact ⟨by simp only [dynarray_get, if_pos hc], by simp only [dynarray_set, if_pos hc]⟩
  have hgood : (0 ≤ idx ∧ idx < da.size) →
      ∃ p x, physical_index da idx = Except.ok p ∧ slot_read da.data p = Except.ok x ∧
        dynarray_get da idx = Except.ok x ∧ ∃ da1, dynarray_set da idx v = Except.ok da1 := by
    intro hg
    have ci : ((idx.toNat : Nat) : Int) = idx := Int.toNat_of_nonneg hg.1
    have hlt : idx.toNat < l.length := by omega
    have hx : l[idx.toNat]? = some l[idx.toNat] := List.getElem?_eq_getElem hlt
    obtain ⟨hp, _, hd⟩ := hl.idx idx.toNat hlt
    have hg1 := hl.get idx.toNat _ hx
    obtain ⟨da1, hs1, _⟩ := abs_set hl idx.toNat v hlt
    have hrd := slot_read_nat _ _ _ (hd.trans hx)
    rw [ci] at hp hg1 hs1 hrd
    exact ⟨_, _, hp, hrd, hg1, da1, hs1⟩
  refine ⟨⟨?_, fun hb => ⟨_, (hbad hb).1⟩⟩, ⟨?_, fun hb => ⟨_, (hbad hb).2⟩⟩, hbad, ?_⟩
  · rintro ⟨e, he⟩
    by_contra hn
    obtain ⟨_, _, _, _, hg, _⟩ := hgood (by omega)
    rw [hg] at he
    cases he
  · rintro ⟨e, he⟩
    by_contra hn
    obtain ⟨_, _, _, _, _, da1, hs⟩ := hgood (by omega)
    rw [hs] at he
    cases he
  · intro hg
    obtain ⟨p, x, h1, h2, h3, _⟩ := hgood hg
    exact ⟨p, x, h1, h2, h3⟩

/-- Witness of C13 on a full buffer that wraps, at index 4 (the size). -/
theorem dynarray_get_set_fail_iff_witness :
    Reachable wrapped_full_state ∧
    dynarray_get wrapped_full_state 4 = Except.error Fault.assert_failed ∧
    dynarray_get wrapped_full_state 3 = Except.ok (Ptr.addr 5) ∧
    (((∃ e, dynarray_get wrapped_full_state 4 = Except.error e)
        ↔ ((4 : Int) < 0 ∨ (4 : Int) ≥ dynarray_size wrapped_full_state)) ∧
    ((∃ e, dynarray_set wrapped_full_state 4 (Ptr.addr 9) = Except.error e)
        ↔ ((4 : Int) < 0 ∨ (4 : Int) ≥ dynarray_size wrapped_full_state)) ∧
    (((4 : Int) < 0 ∨ (4 : Int) ≥ dynarray_size wrapped_full_state) →
      dynarray_get wrapped_full_state 4 = Except.error Fault.assert_failed ∧
      dynarray_set wrapped_full_state 4 (Ptr.addr 9) = Except.error Fault.assert_failed) ∧
    ((0 ≤ (4 : Int) ∧ (4 : Int) < dynarray_size wrapped_full_state) →
      ∃ p x, physical_index wrapped_full_state 4 = Except.ok p ∧
        slot_read wrapped_full_state.data p = Except.ok x ∧
        dynarray_get wrapped_full_state 4 = Except.ok x)) :=
  ⟨da_run_reachable wrapped_full _ _ Reachable.create (by decide) (by decide),
   by decide, by decide,
   dynarray_get_set_fail_iff wrapped_full_state 4 (Ptr.addr 9)
    (da_run_reachable wrapped_full _ _ Reachable.create (by decide) (by decide))⟩

/-- C15: on a reachable container and for `0 ≤ idx < size`,
`dynarray_set(da, idx, v)` returns a container in which `dynarray_get(idx)`
returns `v`, `dynarray_get(j)` returns what it returned before for every valid
`j ≠ idx`, and size, capacity and start are as before. -/
theorem dynarray_set_frame (da : dynarray) (idx : Int) (v : Ptr) (hr : Reachable da)
    (h0 : 0 ≤ idx) (h1 : idx < dynarray_size da) :
    ∃ da1, dynarray_set da idx v = Except.ok da1 ∧
      dynarray_get da1 idx = Except.ok v ∧
      (∀ j : Int, 0 ≤ j → j < dynarray_size da → j ≠ idx →
        ∃ x, dynarray_get da j = Except.ok x ∧ dynarray_get da1 j = Except.ok x) ∧
      dynarray_size da1 = dynarray_size da ∧ da1.capacity = da.capacity ∧
      da1.start = da.start := by
  obtain ⟨l, hl⟩ := hr.abs
  have hsz := hl.size_eq
  simp only [dynarray_size] at h1 ⊢
  have ci : ((idx.toNat : Nat) : Int) = idx := Int.toNat_of_nonneg h0
  have hlt : idx.toNat < l.length := by omega
  obtain ⟨da1, e, ha, s1, s2, s3⟩ := abs_set hl idx.toNat v hlt
  have g := ha.get idx.toNat v (List.getElem?_set_self hlt)
  rw [ci] at e g
  refine ⟨da1, e, g, ?_, s1, s2, s3⟩
  intro j hj0 hj hne
  have cj : ((j.toNat : Nat) : Int) = j := Int.toNat_of_nonneg hj0
  have hjl : j.toNat < l.length := by omega
  have hx : l[j.toNat]? = some l[j.toNat] := List.getElem?_eq_getElem hjl
  have hnat : idx.toNat ≠ j.toNat := by omega
  have hx1 : (l.set idx.toNat v)[j.toNat]? = some l[j.toNat] := by
    rw [List.getElem?_set_ne hnat, hx]
  have a := hl.get j.toNat _ hx
  have b := ha.get j.toNat _ hx1
  rw [cj] at a b
  exact ⟨_, a, b⟩

/-- Witness of C15 on a full buffer that wraps, at index 3. -/
theorem dynarray_set_frame_witness :
    Reachable wrapped_full_state ∧
    ∃ da1, dynarray_set wrapped_full_state 3 (Ptr.addr 9) = Except.ok da1 ∧
      dynarray_get da1 3 = Except.ok (Ptr.addr 9) ∧
      (∀ j : Int, 0 ≤ j → j < dynarray_size wrapped_full_state → j ≠ 3 →
        ∃ x, dynarray_get wrapped_full_state j = Except.ok x ∧
          dynarray_get da1 j = Except.ok x) ∧
      dynarray_size da1 = dynarray_size wrapped_full_state ∧
      da1.capacity = wrapped_full_state.capacity ∧
      da1.start = wrapped_full_state.start :=
  ⟨da_run_reachable wrapped_full _ _ Reachable.create (by decide) (by decide),
   dynarray_set_frame wrapped_full_state 3 (Ptr.addr 9)
    (da_run_reachable wrapped_full _ _ Reachable.create (by decide) (by decide))
    (by decide) (by decide)⟩

/-- C16: `queue_isempty` returns 1 exactly when `queue_size` is 0 and 0
otherwise; it returns 1 on the queue of `queue_create`, and 0 after a
`queue_enqueue` that returned, on a queue whose container is reachable;
`queue_enqueue` returns whenever `start ≥ 0`, `start + size < 2^31` and a full
container has a capacity below `2^30`. -/
theorem queue_isempty_iff (q : queue) (v : Ptr) (hr : Reachable q.array) :
    (queue_isempty q = 1 ↔ queue_size q = 0) ∧
    (queue_isempty q = 0 ↔ queue_size q ≠ 0) ∧
    queue_isempty queue_create = 1 ∧
    (∀ q1, queue_enqueue q v = Except.ok q1 → queue_isempty q1 = 0) ∧
    (0 ≤ q.array.start → q.array.start + q.array.size < 2147483648 →
      (q.array.size = q.array.capacity → q.array.capacity < 1073741824) →
      ∃ q1, queue_enqueue q v = Except.ok q1 ∧ queue_isempty q1 = 0) := by
  obtain ⟨l, hl⟩ := hr.abs
  have hcond : ∀ q1, queue_enqueue q v = Except.ok q1 → queue_isempty q1 = 0 := by
    intro q1 e
    cases e2 : dynarray_insert q.array v with
    | error err =>
      simp only [queue_enqueue, e2] at e
      cases e
    | ok da1 =>
      simp only [queue_enqueue, e2] at e
      have hq : { q with array := da1 } = q1 := Except.ok.inj e
      have ha := (abs_insert_of_ok hl v e2).1
      have hs := ha.size_eq
      simp only [List.length_append, List.length_singleton] at hs
      have hne : ¬ (dynarray_size da1 = 0) := by
        simp only [dynarray_size]
        push_cast at hs
        omega
      rw [← hq]
      simp only [queue_isempty, if_neg hne]
  refine ⟨?_, ?_, by decide, hcond, ?_⟩
  · by_cases h : dynarray_size q.array = 0
    · simp only [queue_isempty, queue_size, if_pos h]
      exact ⟨fun _ => h, fun _ => trivial⟩
    · simp only [queue_isempty, queue_size, if_neg h]
      exact ⟨fun e => absurd e (by decide), fun e => absurd e h⟩
  · by_cases h : dynarray_size q.array = 0
    · simp only [queue_isempty, queue_size, if_pos h]
      exact ⟨fun e => absurd e (by decide), fun e => absurd h e⟩
    · simp only [queue_isempty, queue_size, if_neg h]
      exact ⟨fun _ => h, fun _ => trivial⟩
  · intro h0 h1 hcap
    obtain ⟨da1, e, _, _⟩ := abs_insert_total hl v h0 h1 hcap
    have e1 : queue_enqueue q v = Except.ok { q with array := da1 } := by
      simp only [queue_enqueue, e]
    exact ⟨_, e1, hcond _ e1⟩

/-- Witness of C16 on the queue of `queue_create`. -/
theorem queue_isempty_iff_witness :
    Reachable queue_create.array ∧
    (∃ q1, queue_enqueue queue_create (Ptr.addr 1) = Except.ok q1 ∧ queue_isempty q1 = 0) ∧
    ((queue_isempty queue_create = 1 ↔ queue_size queue_create = 0) ∧
    (queue_isempty queue_create = 0 ↔ queue_size queue_create ≠ 0) ∧
    queue_isempty queue_create = 1 ∧
    (∀ q1, queue_enqueue queue_create (Ptr.addr 1) = Except.ok q1 → queue_isempty q1 = 0) ∧
    (0 ≤ queue_create.array.start →
      queue_create.array.start + queue_create.array.size < 2147483648 →
      (queue_create.array.size = queue_create.array.capacity →
        queue_create.array.capacity < 1073741824) →
      ∃ q1, queue_enqueue queue_create (Ptr.addr 1) = Except.ok q1 ∧
        queue_isempty q1 = 0)) :=
  ⟨Reachable.create, ⟨_, rfl, by decide⟩,
   queue_isempty_iff queue_create (Ptr.addr 1) Reachable.create⟩

/-! ## The capacity -/

theorem dynarray_set_capacity {da da1 : dynarray} {idx : Int} {v : Ptr}
    (h : dynarray_set da idx v = Except.ok da1) : da1.capacity = da.capacity := by
  unfold dynarray_set at h
  split at h
  · cases h
  · split at h
    · cases h
    · split at h
      · cases h
      · cases h
        rfl

/-- C21: in a reachable container the capacity is `4·2^k` for some natural
`k` (with `k ≤ 28`, the capacity being an `int`), hence positive, so that
`% capacity` never divides by zero; a `dynarray_insert` that returns gives a
container whose capacity is twice the former one when `size = capacity` held
and the former one otherwise, and it returns whenever `start ≥ 0`,
`start + size < 2^31` and a full container has a capacity below `2^30`;
`dynarray_set` and `dynarray_remove_front` leave the capacity as it is: no
call decreases it. -/
theorem capacity_power_of_two_never_decreases (da : dynarray) (idx : Int) (v : Ptr)
    (hr : Reachable da) :
    (∃ k : Nat, k ≤ 28 ∧ da.capacity = 4 * 2 ^ k) ∧ 0 < da.capacity ∧
    (∀ a : Int, c_mod a da.capacity = Except.ok (Int.tmod a da.capacity)) ∧
    (∀ da1, dynarray_insert da v = Except.ok da1 →
      ((da.size = da.capacity ∧ da1.capacity = 2 * da.capacity) ∨
       (da.size ≠ da.capacity ∧ da1.capacity = da.capacity)) ∧
      da.capacity ≤ da1.capacity) ∧
    (0 ≤ da.start → da.start + da.size < 2147483648 →
      (da.size = da.capacity → da.capacity < 1073741824) →
      ∃ da1, dynarray_insert da v = Except.ok da1) ∧
    (∀ da1, dynarray_set da idx v = Except.ok da1 → da1.capacity = da.capacity) ∧
    (dynarray_remove_front da).capacity = da.capacity := by
  obtain ⟨l, hl⟩ := hr.abs
  obtain ⟨h4, _, _⟩ := hl.cap_bounds
  have hne : da.capacity ≠ 0 := by omega
  refine ⟨hl.cap_pow, by omega, ?_, ?_, ?_, fun da2 h2 => dynarray_set_capacity h2, rfl⟩
  · intro a
    simp only [c_mod, if_neg hne]
  · intro da1 e
    rcases (abs_insert_of_ok hl v e).2 with ⟨f, c, _⟩ | ⟨f, c, _⟩
    · exact ⟨Or.inl ⟨f, c⟩, by omega⟩
    · exact ⟨Or.inr ⟨f, c⟩, by omega⟩
  · intro h0 h1 hcap
    obtain ⟨da1, e, _⟩ := abs_insert_total hl v h0 h1 hcap
    exact ⟨da1, e⟩

/-- Witness of C21 on a full buffer that wraps, where the insert doubles the
capacity. -/
theorem capacity_power_of_two_never_decreases_witness :
    Reachable wrapped_full_state ∧
    (∃ da1, dynarray_insert wrapped_full_state (Ptr.addr 6) = Except.ok da1 ∧
      da1.capacity = 8) ∧
    ((∃ k : Nat, k ≤ 28 ∧ wrapped_full_state.capacity = 4 * 2 ^ k) ∧
    0 < wrapped_full_state.capacity ∧
    (∀ a : Int, c_mod a wrapped_full_state.capacity
      = Except.ok (Int.tmod a wrapped_full_state.capacity)) ∧
    (∀ da1, dynarray_insert wrapped_full_state (Ptr.addr 6) = Except.ok da1 →
      ((wrapped_full_state.size = wrapped_full_state.capacity ∧
          da1.capacity = 2 * wrapped_full_state.capacity) ∨
       (wrapped_full_state.size ≠ wrapped_full_state.capacity ∧
          da1.capacity = wrapped_full_state.capacity)) ∧
      wrapped_full_state.capacity ≤ da1.capacity) ∧
    (0 ≤ wrapped_full_state.start →
      wrapped_full_state.start + wrapped_full_state.size < 2147483648 →
      (wrapped_full_state.size = wrapped_full_state.capacity →
        wrapped_full_state.capacity < 1073741824) →
      ∃ da1, dynarray_insert wrapped_full_state (Ptr.addr 6) = Except.ok da1) ∧
    (∀ da1, dynarray_set wrapped_full_state 2 (Ptr.addr 6) = Except.ok da1 →
      da1.capacity = wrapped_full_state.capacity) ∧
    (dynarray_remove_front wrapped_full_state).capacity = wrapped_full_state.capacity) :=
  ⟨da_run_reachable wrapped_full _ _ Reachable.create (by decide) (by decide),
   ⟨_, rfl, by decide⟩,
   capacity_power_of_two_never_decreases wrapped_full_state 2 (Ptr.addr 6)
    (da_run_reachable wrapped_full _ _ Reachable.create (by decide) (by decide))⟩
